import Mathlib

/-! manty-dns: the DNS wire codec and the per-datagram handler of `server.go`

A shallow embedding of `server.go`.  Bytes and the `uint16`/`uint32` fields are
natural numbers; a Go slice is the list of its visible elements together with
the part of its backing array that lies between its length and its capacity;
a Go call either returns or stops with a run-time panic.
-/

namespace MantyDns

/-! ## Go run-time model -/

/-- Ways in which a run of the embedded code stops without returning.  The
first two are the Go run-time panics of indexing and slicing; the third is
the exhaustion of the step budget of the embedded `for` loop, which never
happens with the budget `parseQuestion` passes (see `walk_fuel`). -/
inductive Fault where
  | indexOutOfRange
  | sliceBoundsOutOfRange
  | fuelExhausted
  deriving DecidableEq, Repr

/-- Outcome of a Go call: it returns a value or stops with a fault. -/
inductive Run (α : Type) where
  | ok : α → Run α
  | fault : Fault → Run α
  deriving DecidableEq, Repr

/-- Sequencing of Go calls: a fault of the first call is the fault of the whole. -/
def Run.bind {α β : Type} (x : Run α) (f : α → Run β) : Run β :=
  match x with
  | Run.ok a => f a
  | Run.fault e => Run.fault e

/-- A Go `[]byte`: `data` holds the elements at indices `0 .. len-1`, `spare`
the elements of the backing array at indices `len .. cap-1`. -/
structure Slice where
  data : List Nat
  spare : List Nat
  deriving DecidableEq, Repr

/-- Go `len(s)`. -/
def Slice.len (s : Slice) : Nat := s.data.length

/-- Go `cap(s)`. -/
def Slice.cap (s : Slice) : Nat := s.data.length + s.spare.length

/-- Go `s[i]`: panics unless `i < len(s)`. -/
def Slice.index (s : Slice) (i : Nat) : Run Nat :=
  match s.data[i]? with
  | some b => Run.ok b
  | none => Run.fault Fault.indexOutOfRange

/-- Go `s[lo:hi]`: panics unless `lo ≤ hi ≤ cap(s)`; the upper bound is the
capacity, not the length. -/
def Slice.slice (s : Slice) (lo hi : Nat) : Run Slice :=
  if lo ≤ hi ∧ hi ≤ s.cap then
    Run.ok ⟨((s.data ++ s.spare).take hi).drop lo, (s.data ++ s.spare).drop hi⟩
  else Run.fault Fault.sliceBoundsOutOfRange

/-- Go `s[lo:]`, that is `s[lo:len(s)]`: panics unless `lo ≤ len(s)`. -/
def Slice.sliceFrom (s : Slice) (lo : Nat) : Run Slice :=
  if lo ≤ s.len then Run.ok ⟨s.data.drop lo, s.spare⟩
  else Run.fault Fault.sliceBoundsOutOfRange

/-- Go `binary.BigEndian.Uint16(b)`: `_ = b[1]` then
`uint16(b[1]) | uint16(b[0])<<8`. -/
def bigEndianUint16 (b : Slice) : Run Nat :=
  (b.index 1).bind fun b1 =>
  (b.index 0).bind fun b0 =>
  Run.ok (b1 + b0 * 256)

/-- Big-endian encoding of a `uint16`: `byte(v >> 8)`, `byte(v)`. -/
def putUint16 (v : Nat) : List Nat := [v / 256 % 256, v % 256]

/-- Big-endian encoding of a `uint32`. -/
def putUint32 (v : Nat) : List Nat :=
  [v / 16777216 % 256, v / 65536 % 256, v / 256 % 256, v % 256]

/-! ## encoding/binary: fixed-size check -/

/-- Kinds of struct fields as `encoding/binary` sees them. -/
inductive FieldKind where
  | uint8
  | uint16
  | uint32
  | uint64
  | byteArray (n : Nat)
  | int
  | byteSlice
  deriving DecidableEq, Repr

/-- Size of one field in `encoding/binary`; `none` for a kind that has no
fixed size there (`int`, slices). -/
def fieldSize : FieldKind → Option Nat
  | FieldKind.uint8 => some 1
  | FieldKind.uint16 => some 2
  | FieldKind.uint32 => some 4
  | FieldKind.uint64 => some 8
  | FieldKind.byteArray n => some n
  | FieldKind.int => none
  | FieldKind.byteSlice => none

/-- Size of a struct in `encoding/binary` (`dataSize`): the sum of its field
sizes, `none` as soon as one field has no fixed size. -/
def structSize : List FieldKind → Option Nat
  | [] => some 0
  | k :: ks =>
    match fieldSize k, structSize ks with
    | some a, some b => some (a + b)
    | _, _ => none

/-- Error values of `binary.Read` and `binary.Write`. -/
inductive BinaryError where
  | eof
  | unexpectedEOF
  | invalidType
  deriving DecidableEq, Repr

/-- Go `binary.Write(&buf, binary.BigEndian, v)` for a struct value `v` with
field kinds `kinds` and big-endian field encoding `encoded`: the bytes are
appended to the `bytes.Buffer` and the error is nil when every field has a
fixed size; otherwise nothing is written and an error is returned. -/
def binaryWrite (buf : List Nat) (kinds : List FieldKind) (encoded : List Nat) :
    List Nat × Option BinaryError :=
  match structSize kinds with
  | some _ => (buf ++ encoded, none)
  | none => (buf, some BinaryError.invalidType)

/-! ## Data model (`server.go` lines 11-36) -/

/-- Go `DNSHeader`: six `uint16` fields. -/
structure DNSHeader where
  ID : Nat
  Flags : Nat
  QDCount : Nat
  ANCount : Nat
  NSCount : Nat
  ARCount : Nat
  deriving DecidableEq, Repr

/-- The `uint16` range of the six header fields. -/
def DNSHeader.InRange (h : DNSHeader) : Prop :=
  h.ID < 65536 ∧ h.Flags < 65536 ∧ h.QDCount < 65536 ∧ h.ANCount < 65536 ∧
    h.NSCount < 65536 ∧ h.ARCount < 65536

instance (h : DNSHeader) : Decidable h.InRange := by
  unfold DNSHeader.InRange; infer_instance

/-- Go `DNSQuestion`. -/
structure DNSQuestion where
  Name : Slice
  Type_ : Nat
  Class : Nat
  deriving DecidableEq, Repr

/-- Go `DNSAnswer`. -/
structure DNSAnswer where
  Name : Nat
  Type_ : Nat
  Class : Nat
  TTL : Nat
  Len : Nat
  IP : List Nat
  deriving DecidableEq, Repr

/-- Field kinds of `DNSHeader`. -/
def dnsHeaderKinds : List FieldKind :=
  [FieldKind.uint16, FieldKind.uint16, FieldKind.uint16, FieldKind.uint16,
   FieldKind.uint16, FieldKind.uint16]

/-- Field kinds of `DNSAnswer`. -/
def dnsAnswerKinds : List FieldKind :=
  [FieldKind.uint16, FieldKind.uint16, FieldKind.uint16, FieldKind.uint32,
   FieldKind.uint16, FieldKind.byteArray 4]

/-- Big-endian field-by-field encoding of a `DNSHeader`. -/
def encodeHeader (h : DNSHeader) : List Nat :=
  putUint16 h.ID ++ putUint16 h.Flags ++ putUint16 h.QDCount ++ putUint16 h.ANCount ++
    putUint16 h.NSCount ++ putUint16 h.ARCount

/-- Big-endian field-by-field encoding of a `DNSAnswer`. -/
def encodeAnswer (a : DNSAnswer) : List Nat :=
  putUint16 a.Name ++ putUint16 a.Type_ ++ putUint16 a.Class ++ putUint32 a.TTL ++
    putUint16 a.Len ++ a.IP

/-- Big-endian `uint16` at offset `i` of a byte list. -/
def uint16At (d : List Nat) (i : Nat) : Nat := d.getD i 0 * 256 + d.getD (i + 1) 0

/-- Field-by-field decoding of the 12 header bytes, in declaration order. -/
def decodeHeader (d : List Nat) : DNSHeader :=
  { ID := uint16At d 0, Flags := uint16At d 2, QDCount := uint16At d 4,
    ANCount := uint16At d 6, NSCount := uint16At d 8, ARCount := uint16At d 10 }

/-- Go `binary.Read(bytes.NewReader(buffer), binary.BigEndian, &header)`:
`io.ReadFull` of `dataSize(header)` bytes from the reader, which holds the
`len(buffer)` visible bytes, then the field-by-field decoding. -/
def binaryReadHeader (buffer : Slice) : Except BinaryError DNSHeader :=
  match structSize dnsHeaderKinds with
  | none => Except.error BinaryError.invalidType
  | some size =>
    if buffer.len = 0 ∧ 0 < size then Except.error BinaryError.eof
    else if buffer.len < size then Except.error BinaryError.unexpectedEOF
    else Except.ok (decodeHeader (buffer.data.take size))

/-! ## `parseQuestion` (`server.go` lines 86-106) -/

/-- The label walk of `parseQuestion` (lines 91-98) from `offset`, with a step
budget: read the length byte at `offset`; zero ends the name one past it,
anything else advances by `length + 1`. -/
def walk (data : Slice) : Nat → Nat → Run Nat
  | 0, _ => Run.fault Fault.fuelExhausted
  | fuel + 1, offset =>
    (data.index offset).bind fun length =>
      if length = 0 then Run.ok (offset + 1)
      else walk data fuel (offset + length + 1)

/-- Go `parseQuestion(data)`. -/
def parseQuestion (data : Slice) : Run (DNSQuestion × Nat) :=
  (walk data (data.len + 1) 0).bind fun offset =>
  (data.slice 0 offset).bind fun name =>
  ((data.slice offset (offset + 2)).bind bigEndianUint16).bind fun type =>
  ((data.slice (offset + 2) (offset + 4)).bind bigEndianUint16).bind fun cls =>
  Run.ok ({ Name := name, Type_ := type, Class := cls }, offset + 4)

/-! ## `createResponse` (`server.go` lines 108-143) -/

/-- The answer record built at lines 128-135. -/
def mkAnswer (question : DNSQuestion) : DNSAnswer :=
  { Name := 0xC00C, Type_ := question.Type_, Class := question.Class, TTL := 600,
    Len := 4, IP := [192, 0, 2, 1] }

/-- The question loop of `createResponse` (lines 120-140) with `n` iterations
left, the current `offset` and the `response` buffer written so far; the
result is the pair returned by `createResponse`. -/
def questionLoop (request : Slice) :
    Nat → Nat → List Nat → Run (List Nat × Option BinaryError)
  | 0, _, response => Run.ok (response, none)
  | n + 1, offset, response =>
    (request.sliceFrom offset).bind fun data =>
    (parseQuestion data).bind fun r =>
    let question := r.1
    let questionEnd := r.2
    let offset := offset + questionEnd
    (request.slice (offset - questionEnd) offset).bind fun raw =>
    let response := response ++ raw.data
    match binaryWrite response dnsAnswerKinds (encodeAnswer (mkAnswer question)) with
    | (_, some err) => Run.ok ([], some err)
    | (response, none) => questionLoop request n offset response

/-- The header as rewritten at lines 112-113. -/
def responseHeader (header : DNSHeader) : DNSHeader :=
  { header with Flags := 0x8180, ANCount := header.QDCount }

/-- Go `createResponse(header, request)`. -/
def createResponse (header : DNSHeader) (request : Slice) :
    Run (List Nat × Option BinaryError) :=
  let header := responseHeader header
  let response := (binaryWrite [] dnsHeaderKinds (encodeHeader header)).1
  questionLoop request header.QDCount 12 response

/-! ## `handleRequest` (`server.go` lines 64-84) -/

/-- The three log lines of `handleRequest`. -/
inductive LogLine where
  | failedToParseHeader
  | failedToCreateResponse
  | failedToSendResponse
  deriving DecidableEq, Repr

/-- Observable actions of `handleRequest`: a line logged, a datagram handed to
`conn.WriteToUDP`. -/
inductive Event where
  | log : LogLine → Event
  | writeToUDP : List Nat → Event
  deriving DecidableEq, Repr

/-- The socket as `handleRequest` sees it: whether `WriteToUDP` of a payload
reports an error. -/
structure UDPConn where
  writeFails : List Nat → Bool

/-- Lines 75-83 of `handleRequest`: what happens once `createResponse` has
returned `(response, err)`. -/
def afterCreateResponse (conn : UDPConn) (result : List Nat × Option BinaryError) :
    List Event :=
  let response := result.1
  let err := result.2
  (if err.isSome then [Event.log LogLine.failedToCreateResponse] else []) ++
  [Event.writeToUDP response] ++
  (if conn.writeFails response then [Event.log LogLine.failedToSendResponse] else [])

/-- Go `handleRequest(conn, buffer, addr)`: the actions it performs, in order.
A panic of `createResponse` is not recovered. -/
def handleRequest (conn : UDPConn) (buffer : Slice) : Run (List Event) :=
  match binaryReadHeader buffer with
  | Except.error _ => Run.ok [Event.log LogLine.failedToParseHeader]
  | Except.ok header =>
    (createResponse header buffer).bind fun result =>
    Run.ok (afterCreateResponse conn result)

/-! ## Well-formed questions, as the claims describe them -/

/-- Wire form of a name: each label preceded by its length, then a zero byte. -/
def encodeName : List (List Nat) → List Nat
  | [] => [0]
  | l :: ls => l.length :: l ++ encodeName ls

/-- A question as it lies in a request: the labels of its name and the four
bytes of `qtype` and `qclass`. -/
structure WireQuestion where
  labels : List (List Nat)
  t0 : Nat
  t1 : Nat
  c0 : Nat
  c1 : Nat
  deriving DecidableEq, Repr

/-- The raw bytes of a question. -/
def WireQuestion.bytes (q : WireQuestion) : List Nat :=
  encodeName q.labels ++ [q.t0, q.t1, q.c0, q.c1]

/-- Every label of the question is non-empty (a literal label). -/
def WireQuestion.WellFormed (q : WireQuestion) : Prop := ∀ l ∈ q.labels, l ≠ []

instance (q : WireQuestion) : Decidable q.WellFormed := by
  unfold WireQuestion.WellFormed; infer_instance

/-- The 16-byte answer record the claims describe for a question. -/
def WireQuestion.answer (q : WireQuestion) : List Nat :=
  [0xC0, 0x0C] ++ putUint16 (q.t0 * 256 + q.t1) ++ putUint16 (q.c0 * 256 + q.c1) ++
    [0x00, 0x00, 0x02, 0x58, 0x00, 0x04, 0xC0, 0x00, 0x02, 0x01]

/-- The request `7example3com0`, type 1, class 1, behind a 12-byte header with
id `0x1234` and one question. -/
def exampleQuestion : WireQuestion :=
  { labels := [[101, 120, 97, 109, 112, 108, 101], [99, 111, 109]],
    t0 := 0, t1 := 1, c0 := 0, c1 := 1 }

/-- A second question, `3www7example3com0` with type 28 and class 1. -/
def wwwQuestion : WireQuestion :=
  { labels := [[119, 119, 119], [101, 120, 97, 109, 112, 108, 101], [99, 111, 109]],
    t0 := 0, t1 := 28, c0 := 0, c1 := 1 }

/-- Header bytes of the example request. -/
def exampleHeaderBytes : List Nat := [0x12, 0x34, 0x01, 0x00, 0, 1, 0, 0, 0, 0, 0, 0]

/-- The example request as a slice of a larger receive buffer. -/
def exampleRequest : Slice :=
  { data := exampleHeaderBytes ++ exampleQuestion.bytes, spare := [0, 0, 0, 0, 0, 0, 0, 0] }

/-- The raw bytes of consecutive questions. -/
def questionsBytes : List WireQuestion → List Nat
  | [] => []
  | q :: qs => q.bytes ++ questionsBytes qs

/-- The body the claims describe: each question's raw bytes followed by its
answer record, in order. -/
def responseBody : List WireQuestion → List Nat
  | [] => []
  | q :: qs => q.bytes ++ q.answer ++ responseBody qs

/-- Wire form of labels without the closing zero byte. -/
def labelsBytes : List (List Nat) → List Nat
  | [] => []
  | l :: ls => l.length :: l ++ labelsBytes ls

/-- The malformed question buffers: `Malformed data spare f` says that the
visible bytes `data` of a slice with spare capacity `spare` are of one of the
three malformed shapes, and names the Go panic `f` that the shape leads to.

* `noTerminator`: complete literal labels up to the end, no zero byte;
* `labelPastEnd`: complete labels, then a length byte `len` with fewer than
  `len` bytes behind it;
* `shortTail`: a well-formed name with fewer than 4 bytes behind it, where
  the capacity of the slice does not reach 4 bytes behind the name either. -/
inductive Malformed : List Nat → List Nat → Fault → Prop where
  | noTerminator (labels : List (List Nat)) (spare : List Nat) :
      (∀ l ∈ labels, l ≠ []) →
      Malformed (labelsBytes labels) spare Fault.indexOutOfRange
  | labelPastEnd (labels : List (List Nat)) (len : Nat) (part spare : List Nat) :
      (∀ l ∈ labels, l ≠ []) → part.length < len →
      Malformed (labelsBytes labels ++ len :: part) spare Fault.indexOutOfRange
  | shortTail (labels : List (List Nat)) (tail spare : List Nat) :
      (∀ l ∈ labels, l ≠ []) → tail.length + spare.length < 4 →
      Malformed (encodeName labels ++ tail) spare Fault.sliceBoundsOutOfRange

/-! ## Basic facts of the run-time model -/

@[simp] theorem Run.bind_ok {α β : Type} (a : α) (f : α → Run β) :
    (Run.ok a).bind f = f a := rfl

@[simp] theorem Run.bind_fault {α β : Type} (e : Fault) (f : α → Run β) :
    (Run.fault e : Run α).bind f = Run.fault e := rfl

theorem Slice.index_at (pre rest spare : List Nat) (b : Nat) :
    Slice.index ⟨pre ++ b :: rest, spare⟩ pre.length = Run.ok b := by
  have h : (pre ++ b :: rest)[pre.length]? = some b := by
    rw [List.getElem?_append_right (Nat.le_refl _)]
    simp
  simp only [Slice.index, h]

theorem Slice.index_beyond (s : Slice) (i : Nat) (h : s.data.length ≤ i) :
    s.index i = Run.fault Fault.indexOutOfRange := by
  simp [Slice.index, List.getElem?_eq_none h]

theorem Slice.slice_mid (a b c spare : List Nat) :
    Slice.slice ⟨a ++ b ++ c, spare⟩ a.length (a.length + b.length) =
      Run.ok ⟨b, c ++ spare⟩ := by
  have h1 : a.length + b.length ≤ (⟨a ++ b ++ c, spare⟩ : Slice).cap := by
    simp [Slice.cap]; omega
  have h2 : (a ++ b ++ c ++ spare).take (a.length + b.length) = a ++ b := by
    rw [List.append_assoc (a ++ b), List.take_append_eq_append_take]
    simp
  have h3 : (a ++ b ++ c ++ spare).drop (a.length + b.length) = c ++ spare := by
    rw [List.append_assoc (a ++ b), List.drop_append_eq_append_drop]
    simp
  simp only [Slice.slice]
  rw [if_pos ⟨Nat.le_add_right _ _, h1⟩, h2, h3]
  simp

theorem Slice.sliceFrom_at (a b spare : List Nat) :
    Slice.sliceFrom ⟨a ++ b, spare⟩ a.length = Run.ok ⟨b, spare⟩ := by
  simp [Slice.sliceFrom, Slice.len]

theorem bigEndianUint16_pair (x y : Nat) (spare : List Nat) :
    bigEndianUint16 ⟨[x, y], spare⟩ = Run.ok (x * 256 + y) := by
  simp [bigEndianUint16, Slice.index, Nat.add_comm]

theorem structSize_dnsHeaderKinds : structSize dnsHeaderKinds = some 12 := rfl

theorem structSize_dnsAnswerKinds : structSize dnsAnswerKinds = some 16 := rfl

theorem encodeName_length_pos (labels : List (List Nat)) :
    0 < (encodeName labels).length := by
  cases labels <;> simp [encodeName]

theorem encodeName_eq (labels : List (List Nat)) :
    encodeName labels = labelsBytes labels ++ [0] := by
  induction labels with
  | nil => rfl
  | cons l ls ih => simp [encodeName, labelsBytes, ih]

theorem uint16At_pair (pre rest : List Nat) (x y : Nat) :
    uint16At (pre ++ x :: y :: rest) pre.length = x * 256 + y := by
  have h0 : (pre ++ x :: y :: rest)[pre.length]? = some x := by
    rw [List.getElem?_append_right (Nat.le_refl _)]; simp
  have h1 : (pre ++ x :: y :: rest)[pre.length + 1]? = some y := by
    rw [List.getElem?_append_right (Nat.le_add_right _ _)]; simp
  simp only [uint16At, List.getD_eq_getElem?_getD, h0, h1, Option.getD_some]

/-! ## The label walk -/

/-- The walk over a well-formed name that starts at `pre.length` ends one past
its zero terminator, whatever follows, given one unit of budget per label and
one for the terminator. -/
theorem walk_name (labels : List (List Nat)) :
    ∀ (pre rest spare : List Nat) (fuel : Nat), (∀ l ∈ labels, l ≠ []) →
      labels.length < fuel →
      walk ⟨pre ++ encodeName labels ++ rest, spare⟩ fuel pre.length =
        Run.ok (pre.length + (encodeName labels).length) := by
  induction labels with
  | nil =>
    intro pre rest spare fuel _ hf
    obtain ⟨f, rfl⟩ : ∃ f, fuel = f + 1 := ⟨fuel - 1, by simp at hf; omega⟩
    have : pre ++ encodeName [] ++ rest = pre ++ 0 :: rest := by simp [encodeName]
    rw [this, walk, Slice.index_at]
    simp [encodeName]
  | cons l ls ih =>
    intro pre rest spare fuel hwf hf
    obtain ⟨f, rfl⟩ : ∃ f, fuel = f + 1 := ⟨fuel - 1, by simp at hf; omega⟩
    have hl : l ≠ [] := hwf l (by simp)
    have hlen : l.length ≠ 0 := by
      intro h; exact hl (List.length_eq_zero.mp h)
    have e1 : pre ++ encodeName (l :: ls) ++ rest =
        pre ++ l.length :: (l ++ encodeName ls ++ rest) := by simp [encodeName]
    have e2 : pre ++ encodeName (l :: ls) ++ rest =
        (pre ++ l.length :: l) ++ encodeName ls ++ rest := by simp [encodeName]
    have step : walk ⟨pre ++ encodeName (l :: ls) ++ rest, spare⟩ (f + 1) pre.length =
        walk ⟨pre ++ encodeName (l :: ls) ++ rest, spare⟩ f (pre.length + l.length + 1) := by
      rw [walk]
      nth_rewrite 1 [e1]
      rw [Slice.index_at]
      simp [hlen]
    rw [step, e2]
    have hpos : pre.length + l.length + 1 = (pre ++ l.length :: l).length := by
      simp; omega
    rw [hpos, ih (pre ++ l.length :: l) rest spare f
      (fun x hx => hwf x (by simp [hx])) (by simp at hf; omega)]
    simp [encodeName]; omega

theorem encodeName_length_ge (labels : List (List Nat)) :
    labels.length < (encodeName labels).length := by
  induction labels with
  | nil => simp [encodeName]
  | cons l ls ih => simp [encodeName]; omega

/-- What `parseQuestion` returns on a buffer that starts with a well-formed
name followed by at least four bytes. -/
theorem parseQuestion_wire (labels : List (List Nat)) (t0 t1 c0 c1 : Nat)
    (rest spare : List Nat) (hwf : ∀ l ∈ labels, l ≠ []) :
    parseQuestion ⟨encodeName labels ++ t0 :: t1 :: c0 :: c1 :: rest, spare⟩ =
      Run.ok ({ Name := ⟨encodeName labels, t0 :: t1 :: c0 :: c1 :: rest ++ spare⟩,
                Type_ := t0 * 256 + t1, Class := c0 * 256 + c1 },
              (encodeName labels).length + 4) := by
  have hw := walk_name labels [] (t0 :: t1 :: c0 :: c1 :: rest) spare
    ((encodeName labels ++ t0 :: t1 :: c0 :: c1 :: rest).length + 1) hwf
    (by have := encodeName_length_ge labels; simp; omega)
  simp only [List.nil_append, List.length_nil, Nat.zero_add] at hw
  have s1 := Slice.slice_mid [] (encodeName labels) (t0 :: t1 :: c0 :: c1 :: rest) spare
  have s2 := Slice.slice_mid (encodeName labels) [t0, t1] (c0 :: c1 :: rest) spare
  have s3 := Slice.slice_mid (encodeName labels ++ [t0, t1]) [c0, c1] rest spare
  simp only [List.nil_append, List.length_nil, Nat.zero_add, List.append_assoc,
    List.cons_append, List.length_append, List.length_cons, Nat.add_assoc] at s1 s2 s3
  simp only [parseQuestion, Slice.len, hw, Run.bind_ok, s1, s2, s3, bigEndianUint16_pair]
  simp

/-- One step of the walk over a non-zero length byte. -/
theorem walk_step (data : Slice) (fuel offset len : Nat)
    (h : data.index offset = Run.ok len) (hne : len ≠ 0) :
    walk data (fuel + 1) offset = walk data fuel (offset + len + 1) := by
  rw [walk, h, Run.bind_ok, if_neg hne]

/-- The walk over complete literal labels that start at `pre.length` reaches
the byte behind them, using one unit of budget per label. -/
theorem walk_labels (labels : List (List Nat)) :
    ∀ (pre rest spare : List Nat) (m : Nat), (∀ l ∈ labels, l ≠ []) →
      walk ⟨pre ++ labelsBytes labels ++ rest, spare⟩ (labels.length + m) pre.length =
        walk ⟨pre ++ labelsBytes labels ++ rest, spare⟩ m (pre ++ labelsBytes labels).length := by
  induction labels with
  | nil => intro pre rest spare m _; simp [labelsBytes]
  | cons l ls ih =>
    intro pre rest spare m hwf
    have hlen : l.length ≠ 0 := fun h => hwf l (by simp) (List.length_eq_zero.mp h)
    have e1 : pre ++ labelsBytes (l :: ls) ++ rest =
        pre ++ l.length :: (l ++ labelsBytes ls ++ rest) := by simp [labelsBytes]
    have e2 : pre ++ labelsBytes (l :: ls) ++ rest =
        (pre ++ l.length :: l) ++ labelsBytes ls ++ rest := by simp [labelsBytes]
    have hi : Slice.index ⟨pre ++ labelsBytes (l :: ls) ++ rest, spare⟩ pre.length =
        Run.ok l.length := by rw [e1, Slice.index_at]
    have hn : (l :: ls).length + m = (ls.length + m) + 1 := by simp; omega
    have hpos : pre.length + l.length + 1 = (pre ++ l.length :: l).length := by simp; omega
    rw [hn, walk_step _ _ _ _ hi hlen, hpos, e2,
      ih (pre ++ l.length :: l) rest spare m (fun x hx => hwf x (by simp [hx]))]
    simp [labelsBytes]

theorem labelsBytes_length_ge (labels : List (List Nat)) :
    labels.length ≤ (labelsBytes labels).length := by
  induction labels with
  | nil => simp [labelsBytes]
  | cons l ls ih => simp [labelsBytes]; omega

/-- The walk panics on complete labels that reach the end of the buffer. -/
theorem walk_noTerminator (labels : List (List Nat)) (spare : List Nat)
    (hwf : ∀ l ∈ labels, l ≠ []) :
    walk ⟨labelsBytes labels, spare⟩ ((labelsBytes labels).length + 1) 0 =
      Run.fault Fault.indexOutOfRange := by
  have h := walk_labels labels [] [] spare ((labelsBytes labels).length - labels.length + 1) hwf
  have hf : labels.length + ((labelsBytes labels).length - labels.length + 1) =
      (labelsBytes labels).length + 1 := by
    have := labelsBytes_length_ge labels; omega
  simp only [List.nil_append, List.append_nil, List.length_nil] at h
  rw [hf] at h
  rw [h, walk, Slice.index_beyond _ _ (Nat.le_refl _), Run.bind_fault]

/-- The walk panics when a length byte announces more bytes than are left. -/
theorem walk_labelPastEnd (labels : List (List Nat)) (len : Nat) (part spare : List Nat)
    (hwf : ∀ l ∈ labels, l ≠ []) (hp : part.length < len) :
    walk ⟨labelsBytes labels ++ len :: part, spare⟩
        ((labelsBytes labels ++ len :: part).length + 1) 0 =
      Run.fault Fault.indexOutOfRange := by
  have h := walk_labels labels [] (len :: part) spare
    ((labelsBytes labels).length - labels.length + part.length + 2) hwf
  have hf : labels.length + ((labelsBytes labels).length - labels.length + part.length + 2) =
      (labelsBytes labels ++ len :: part).length + 1 := by
    have := labelsBytes_length_ge labels; simp; omega
  simp only [List.nil_append, List.length_nil] at h
  rw [hf] at h
  have hi := Slice.index_at (labelsBytes labels) part spare len
  have hm : (labelsBytes labels).length - labels.length + part.length + 2 =
      ((labelsBytes labels).length - labels.length + part.length) + 1 + 1 := by omega
  rw [h, hm, walk_step _ _ _ _ hi (by omega), walk,
    Slice.index_beyond _ _ (by simp; omega), Run.bind_fault]

/-- The step budget is never the reason for the walk to stop: with at least
one unit, and more units than bytes are left, the walk ends in a result or
in a Go panic. -/
theorem walk_fuel (data : Slice) :
    ∀ (fuel offset : Nat), 1 ≤ fuel → data.len < fuel + offset →
      walk data fuel offset ≠ Run.fault Fault.fuelExhausted := by
  intro fuel
  induction fuel with
  | zero => intro offset h; omega
  | succ f ih =>
    intro offset _ hlt
    rw [walk]
    cases hi : data.index offset with
    | fault e =>
      simp only [Slice.index] at hi
      split at hi
      · simp at hi
      · simp only [Run.fault.injEq] at hi
        rw [Run.bind_fault, ← hi]; simp
    | ok len =>
      rw [Run.bind_ok]
      by_cases h0 : len = 0
      · rw [if_pos h0]; simp
      · rw [if_neg h0]
        have hoff : offset < data.len := by
          simp only [Slice.index] at hi
          split at hi
          · rename_i b hb
            have := (List.getElem?_eq_some_iff.mp hb).1
            exact this
          · simp at hi
        exact ih (offset + len + 1) (by omega) (by omega)

/-- With the budget `parseQuestion` passes, the walk never stops for lack of
budget. -/
theorem walk_fuel_parseQuestion (data : Slice) :
    walk data (data.len + 1) 0 ≠ Run.fault Fault.fuelExhausted :=
  walk_fuel data (data.len + 1) 0 (by omega) (by omega)

/-- A two-byte slice always decodes. -/
theorem bigEndianUint16_ok (b : Slice) (h : b.data.length = 2) :
    ∃ v, bigEndianUint16 b = Run.ok v := by
  obtain ⟨d, sp⟩ := b
  match d, h with
  | [x, y], _ => exact ⟨x * 256 + y, bigEndianUint16_pair x y sp⟩

/-- What `parseQuestion` does on each malformed shape. -/
theorem parseQuestion_malformed (data spare : List Nat) (f : Fault)
    (hm : Malformed data spare f) : parseQuestion ⟨data, spare⟩ = Run.fault f := by
  cases hm with
  | noTerminator labels spare hwf =>
    simp only [parseQuestion, Slice.len, walk_noTerminator labels spare hwf, Run.bind_fault]
  | labelPastEnd labels len part spare hwf hp =>
    simp only [parseQuestion, Slice.len, walk_labelPastEnd labels len part spare hwf hp,
      Run.bind_fault]
  | shortTail labels tail spare hwf hshort =>
    have hw := walk_name labels [] tail spare ((encodeName labels ++ tail).length + 1) hwf
      (by have := encodeName_length_ge labels; simp; omega)
    simp only [List.nil_append, List.length_nil, Nat.zero_add] at hw
    have s1 := Slice.slice_mid [] (encodeName labels) tail spare
    simp only [List.nil_append, List.length_nil, Nat.zero_add] at s1
    simp only [parseQuestion, Slice.len, hw, Run.bind_ok, s1]
    have hcap : ¬ ((encodeName labels).length + 2 ≤ (encodeName labels).length + 4 ∧
        (encodeName labels).length + 4 ≤ (⟨encodeName labels ++ tail, spare⟩ : Slice).cap) := by
      simp [Slice.cap]; omega
    have s3 : Slice.slice ⟨encodeName labels ++ tail, spare⟩ ((encodeName labels).length + 2)
        ((encodeName labels).length + 4) = Run.fault Fault.sliceBoundsOutOfRange := by
      simp only [Slice.slice]; rw [if_neg hcap]
    by_cases hc : (encodeName labels).length + 2 ≤
        (⟨encodeName labels ++ tail, spare⟩ : Slice).cap
    · have s2 : Slice.slice ⟨encodeName labels ++ tail, spare⟩ (encodeName labels).length
          ((encodeName labels).length + 2) =
          Run.ok ⟨((encodeName labels ++ tail ++ spare).take
            ((encodeName labels).length + 2)).drop (encodeName labels).length,
            (encodeName labels ++ tail ++ spare).drop ((encodeName labels).length + 2)⟩ := by
        simp only [Slice.slice]; rw [if_pos ⟨Nat.le_add_right _ _, hc⟩]
      obtain ⟨v, hv⟩ := bigEndianUint16_ok ⟨((encodeName labels ++ tail ++ spare).take
            ((encodeName labels).length + 2)).drop (encodeName labels).length,
            (encodeName labels ++ tail ++ spare).drop ((encodeName labels).length + 2)⟩
        (by simp [Slice.cap] at hc; simp; omega)
      rw [s2, Run.bind_ok, hv, Run.bind_ok, s3, Run.bind_fault, Run.bind_fault]
    · have s2 : Slice.slice ⟨encodeName labels ++ tail, spare⟩ (encodeName labels).length
          ((encodeName labels).length + 2) = Run.fault Fault.sliceBoundsOutOfRange := by
        simp only [Slice.slice]; rw [if_neg (fun h => hc h.2)]
      rw [s2, Run.bind_fault, Run.bind_fault]

/-- A panic of `parseQuestion` on the bytes at the current offset is a panic
of the loop. -/
theorem questionLoop_fault (pre data spare response : List Nat) (n : Nat) (f : Fault)
    (h : parseQuestion ⟨data, spare⟩ = Run.fault f) :
    questionLoop ⟨pre ++ data, spare⟩ (n + 1) pre.length response = Run.fault f := by
  rw [questionLoop, Slice.sliceFrom_at, Run.bind_ok, h, Run.bind_fault]

/-! ## The question loop -/

theorem encodeAnswer_mkAnswer (name : Slice) (q : WireQuestion) :
    encodeAnswer (mkAnswer ⟨name, q.t0 * 256 + q.t1, q.c0 * 256 + q.c1⟩) = q.answer := by
  have h1 : putUint16 0xC00C = [0xC0, 0x0C] := by decide
  have h2 : putUint32 600 = [0x00, 0x00, 0x02, 0x58] := by decide
  have h3 : putUint16 4 = [0x00, 0x04] := by decide
  simp only [encodeAnswer, mkAnswer, WireQuestion.answer, h1, h2, h3]
  simp only [List.append_assoc, List.cons_append, List.nil_append]

theorem WireQuestion.bytes_length (q : WireQuestion) :
    q.bytes.length = (encodeName q.labels).length + 4 := by
  simp [WireQuestion.bytes]

/-- One iteration of the loop on a well-formed question lying at `pre.length`. -/
theorem questionLoop_step (q : WireQuestion) (pre rest spare response : List Nat)
    (n : Nat) (hwf : q.WellFormed) :
    questionLoop ⟨pre ++ q.bytes ++ rest, spare⟩ (n + 1) pre.length response =
      questionLoop ⟨pre ++ q.bytes ++ rest, spare⟩ n (pre ++ q.bytes).length
        (response ++ q.bytes ++ q.answer) := by
  have hs := Slice.sliceFrom_at pre (q.bytes ++ rest) spare
  have hp := parseQuestion_wire q.labels q.t0 q.t1 q.c0 q.c1 rest spare hwf
  have hb : q.bytes ++ rest = encodeName q.labels ++ q.t0 :: q.t1 :: q.c0 :: q.c1 :: rest := by
    simp [WireQuestion.bytes]
  have hm := Slice.slice_mid pre q.bytes rest spare
  rw [questionLoop, List.append_assoc, hs, Run.bind_ok, hb, hp, Run.bind_ok]
  simp only []
  rw [← hb, ← List.append_assoc, Nat.add_sub_cancel, ← q.bytes_length, hm, Run.bind_ok]
  simp only [binaryWrite, structSize_dnsAnswerKinds, encodeAnswer_mkAnswer,
    List.length_append, List.append_assoc]

/-- The loop over well-formed questions lying one after the other from
`pre.length`: it appends each question and its answer and goes on with the
iterations that are left. -/
theorem questionLoop_prefix (qs : List WireQuestion) :
    ∀ (pre rest spare response : List Nat) (m : Nat), (∀ q ∈ qs, q.WellFormed) →
      questionLoop ⟨pre ++ questionsBytes qs ++ rest, spare⟩ (qs.length + m) pre.length
          response =
        questionLoop ⟨pre ++ questionsBytes qs ++ rest, spare⟩ m
          (pre ++ questionsBytes qs).length (response ++ responseBody qs) := by
  induction qs with
  | nil => intro pre rest spare response m _; simp [questionsBytes, responseBody]
  | cons q qs ih =>
    intro pre rest spare response m hwf
    have e : pre ++ questionsBytes (q :: qs) ++ rest =
        pre ++ q.bytes ++ (questionsBytes qs ++ rest) := by simp [questionsBytes]
    have e2 : pre ++ q.bytes ++ (questionsBytes qs ++ rest) =
        (pre ++ q.bytes) ++ questionsBytes qs ++ rest := by simp
    have hn : (q :: qs).length + m = (qs.length + m) + 1 := by simp; omega
    rw [e, hn, questionLoop_step q pre _ spare response _ (hwf q (by simp)), e2,
      ih (pre ++ q.bytes) rest spare _ m (fun x hx => hwf x (by simp [hx]))]
    simp [questionsBytes, responseBody]

/-- The bytes `createResponse` writes before the loop. -/
theorem createResponse_eq (header : DNSHeader) (request : Slice) :
    createResponse header request =
      questionLoop request header.QDCount 12 (encodeHeader (responseHeader header)) := by
  simp [createResponse, binaryWrite, structSize_dnsHeaderKinds, responseHeader]

/-- On a request holding `QDCount` well-formed questions behind its 12 header
bytes, `createResponse` returns the header, then each question followed by
its answer, with a nil error. -/
theorem createResponse_wire (header : DNSHeader) (hdr : List Nat) (qs : List WireQuestion)
    (rest spare : List Nat) (hlen : hdr.length = 12) (hn : header.QDCount = qs.length)
    (hwf : ∀ q ∈ qs, q.WellFormed) :
    createResponse header ⟨hdr ++ questionsBytes qs ++ rest, spare⟩ =
      Run.ok (encodeHeader (responseHeader header) ++ responseBody qs, none) := by
  have h := questionLoop_prefix qs hdr rest spare (encodeHeader (responseHeader header)) 0 hwf
  rw [createResponse_eq, hn, ← hlen]
  simpa [questionLoop] using h

/-- Whatever the loop returns, its error is nil and the bytes written before
the loop are still the beginning of the result. -/
theorem questionLoop_result (request : Slice) :
    ∀ (n offset : Nat) (response resp : List Nat) (err : Option BinaryError),
      questionLoop request n offset response = Run.ok (resp, err) →
      err = none ∧ ∃ tail, resp = response ++ tail := by
  intro n
  induction n with
  | zero =>
    intro offset response resp err h
    simp only [questionLoop, Run.ok.injEq, Prod.mk.injEq] at h
    exact ⟨h.2.symm, [], by simp [h.1]⟩
  | succ n ih =>
    intro offset response resp err h
    rw [questionLoop] at h
    cases hs : request.sliceFrom offset with
    | fault e => rw [hs] at h; simp at h
    | ok data =>
      rw [hs, Run.bind_ok] at h
      cases hp : parseQuestion data with
      | fault e => rw [hp] at h; simp at h
      | ok r =>
        rw [hp, Run.bind_ok] at h
        simp only [] at h
        cases hr : request.slice (offset + r.2 - r.2) (offset + r.2) with
        | fault e => rw [hr] at h; simp at h
        | ok raw =>
          rw [hr, Run.bind_ok] at h
          simp only [binaryWrite, structSize_dnsAnswerKinds] at h
          obtain ⟨he, tail, ht⟩ := ih _ _ _ _ h
          exact ⟨he, raw.data ++ encodeAnswer (mkAnswer r.1) ++ tail, by rw [ht]; simp⟩

theorem encodeHeader_length (h : DNSHeader) : (encodeHeader h).length = 12 := by
  simp [encodeHeader, putUint16]

theorem uint16At_take (d : List Nat) (i n : Nat) (h : i + 1 < n) :
    uint16At (d.take n) i = uint16At d i := by
  simp only [uint16At, List.getD_eq_getElem?_getD, List.getElem?_take]
  rw [if_pos (by omega), if_pos h]

theorem uint16At_putUint16 (pre rest : List Nat) (v : Nat) (hv : v < 65536) :
    uint16At (pre ++ putUint16 v ++ rest) pre.length = v := by
  have h0 : (pre ++ putUint16 v ++ rest)[pre.length]? = some (v / 256 % 256) := by
    rw [List.append_assoc, List.getElem?_append_right (Nat.le_refl _)]
    simp [putUint16]
  have h1 : (pre ++ putUint16 v ++ rest)[pre.length + 1]? = some (v % 256) := by
    rw [List.append_assoc, List.getElem?_append_right (Nat.le_add_right _ _)]
    simp [putUint16]
  simp only [uint16At, List.getD_eq_getElem?_getD, h0, h1, Option.getD_some]
  omega

/-- Decoding the bytes of an encoded in-range header gives the header back,
whatever follows the 12 bytes. -/
theorem decodeHeader_encodeHeader (h : DNSHeader) (rest : List Nat) (hr : h.InRange) :
    decodeHeader (encodeHeader h ++ rest) = h := by
  obtain ⟨h1, h2, h3, h4, h5, h6⟩ := hr
  have a1 := uint16At_putUint16 [] (putUint16 h.Flags ++ putUint16 h.QDCount ++
    putUint16 h.ANCount ++ putUint16 h.NSCount ++ putUint16 h.ARCount ++ rest) h.ID h1
  have a2 := uint16At_putUint16 (putUint16 h.ID) (putUint16 h.QDCount ++
    putUint16 h.ANCount ++ putUint16 h.NSCount ++ putUint16 h.ARCount ++ rest) h.Flags h2
  have a3 := uint16At_putUint16 (putUint16 h.ID ++ putUint16 h.Flags) (
    putUint16 h.ANCount ++ putUint16 h.NSCount ++ putUint16 h.ARCount ++ rest) h.QDCount h3
  have a4 := uint16At_putUint16 (putUint16 h.ID ++ putUint16 h.Flags ++ putUint16 h.QDCount)
    (putUint16 h.NSCount ++ putUint16 h.ARCount ++ rest) h.ANCount h4
  have a5 := uint16At_putUint16 (putUint16 h.ID ++ putUint16 h.Flags ++ putUint16 h.QDCount ++
    putUint16 h.ANCount) (putUint16 h.ARCount ++ rest) h.NSCount h5
  have a6 := uint16At_putUint16 (putUint16 h.ID ++ putUint16 h.Flags ++ putUint16 h.QDCount ++
    putUint16 h.ANCount ++ putUint16 h.NSCount) rest h.ARCount h6
  have l : ∀ v, (putUint16 v).length = 2 := fun v => rfl
  simp only [List.length_append, l, List.length_nil, List.nil_append, List.append_assoc]
    at a1 a2 a3 a4 a5 a6
  simp only [decodeHeader, encodeHeader, List.append_assoc, a1, a2, a3, a4, a5, a6]

/-- What `binary.Read` returns on a buffer of at least 12 bytes. -/
theorem binaryReadHeader_of_le (buffer : Slice) (h : 12 ≤ buffer.len) :
    binaryReadHeader buffer = Except.ok (decodeHeader (buffer.data.take 12)) := by
  simp only [binaryReadHeader, structSize_dnsHeaderKinds]
  rw [if_neg (by omega), if_neg (by omega)]

theorem responseBody_append (a b : List WireQuestion) :
    responseBody (a ++ b) = responseBody a ++ responseBody b := by
  induction a with
  | nil => simp [responseBody]
  | cons q a ih => simp [responseBody, ih]

theorem WireQuestion.answer_length (q : WireQuestion) : q.answer.length = 16 := by
  simp [WireQuestion.answer, putUint16]

theorem responseBody_length (qs : List WireQuestion) :
    (responseBody qs).length = (qs.map (fun q => q.bytes.length + 16)).sum := by
  induction qs with
  | nil => simp [responseBody]
  | cons q qs ih => simp [responseBody, ih, WireQuestion.answer_length]; omega

/-- The two bytes that open the `i`-th answer record of the body. -/
theorem responseBody_answer_start (H : List Nat) (qs : List WireQuestion) (i : Nat)
    (hi : i < qs.length) :
    (H ++ responseBody qs)[H.length + ((qs.take i).map (fun q => q.bytes.length + 16)).sum +
        qs[i].bytes.length]? = some 0xC0 ∧
    (H ++ responseBody qs)[H.length + ((qs.take i).map (fun q => q.bytes.length + 16)).sum +
        qs[i].bytes.length + 1]? = some 0x0C := by
  have hsplit : qs = qs.take i ++ qs[i] :: qs.drop (i + 1) := by
    rw [← List.drop_eq_getElem_cons hi, List.take_append_drop]
  have hbody : H ++ responseBody qs =
      (H ++ responseBody (qs.take i) ++ qs[i].bytes) ++
        (0xC0 :: 0x0C :: (qs[i].answer.drop 2 ++ responseBody (qs.drop (i + 1)))) := by
    conv_lhs => rw [hsplit]
    rw [responseBody_append]
    simp [responseBody, WireQuestion.answer]
  have hl : (H ++ responseBody (qs.take i) ++ qs[i].bytes).length =
      H.length + ((qs.take i).map (fun q => q.bytes.length + 16)).sum + qs[i].bytes.length := by
    simp only [List.length_append, responseBody_length]
  rw [hbody, ← hl]
  constructor
  · rw [List.getElem?_append_right (Nat.le_refl _)]; simp
  · rw [List.getElem?_append_right (Nat.le_add_right _ _)]; simp

theorem encodeName_append_cons (before after : List (List Nat)) (l : List Nat) :
    encodeName (before ++ l :: after) =
      labelsBytes before ++ l.length :: l ++ encodeName after := by
  induction before with
  | nil => simp [labelsBytes, encodeName]
  | cons b bs ih =>
    have e : encodeName (b :: bs ++ l :: after) =
        b.length :: b ++ encodeName (bs ++ l :: after) := rfl
    rw [e, ih]
    simp [labelsBytes]

/-- Every response `createResponse` returns begins with the 12 bytes of the
rewritten header. -/
theorem createResponse_header (h : DNSHeader) (request : Slice) (resp : List Nat)
    (err : Option BinaryError) (hres : createResponse h request = Run.ok (resp, err)) :
    ∃ tail, resp = encodeHeader (responseHeader h) ++ tail := by
  rw [createResponse_eq] at hres
  exact (questionLoop_result request _ _ _ _ _ hres).2

theorem responseHeader_inRange (h : DNSHeader) (hr : h.InRange) :
    (responseHeader h).InRange := by
  obtain ⟨h1, _, h3, _, h5, h6⟩ := hr
  exact ⟨h1, by simp [responseHeader], h3, h3, h5, h6⟩

theorem putUint16_pair (x y : Nat) (hx : x < 256) (hy : y < 256) :
    putUint16 (x * 256 + y) = [x, y] := by
  have h1 : (x * 256 + y) / 256 % 256 = x := by omega
  have h2 : (x * 256 + y) % 256 = y := by omega
  simp only [putUint16, h1, h2]

/-- Stability of the walk under the step budget: any two budgets with at
least one unit and more units than bytes are left give the same outcome. -/
theorem walk_fuel_stable (data : Slice) :
    ∀ (fuel fuel2 offset : Nat), 1 ≤ fuel → data.len < fuel + offset →
      1 ≤ fuel2 → data.len < fuel2 + offset →
      walk data fuel offset = walk data fuel2 offset := by
  intro fuel
  induction fuel with
  | zero => intro fuel2 offset h; omega
  | succ f ih =>
    intro fuel2 offset _ hlt h2 hlt2
    obtain ⟨g, rfl⟩ : ∃ g, fuel2 = g + 1 := ⟨fuel2 - 1, by omega⟩
    rw [walk, walk]
    cases hi : data.index offset with
    | fault e => rfl
    | ok len =>
      rw [Run.bind_ok, Run.bind_ok]
      by_cases h0 : len = 0
      · rw [if_pos h0, if_pos h0]
      · rw [if_neg h0, if_neg h0]
        have hoff : offset < data.len := by
          simp only [Slice.index] at hi
          split at hi
          · rename_i b hb
            exact (List.getElem?_eq_some_iff.mp hb).1
          · simp at hi
        exact ih g (offset + len + 1) (by omega) (by omega) (by omega) (by omega)

/-- The walk ends in an offset or in the panic of an index outside the
buffer, given a budget of at least one unit and more units than bytes are
left. -/
theorem walk_outcome (data : Slice) :
    ∀ (fuel offset : Nat), 1 ≤ fuel → data.len < fuel + offset →
      (∃ k, walk data fuel offset = Run.ok k ∧ k ≤ data.len) ∨
        walk data fuel offset = Run.fault Fault.indexOutOfRange := by
  intro fuel
  induction fuel with
  | zero => intro offset h; omega
  | succ f ih =>
    intro offset _ hlt
    rw [walk]
    cases hi : data.index offset with
    | fault e =>
      simp only [Slice.index] at hi
      split at hi
      · simp at hi
      · simp only [Run.fault.injEq] at hi
        right; rw [Run.bind_fault, ← hi]
    | ok len =>
      have hoff : offset < data.len := by
        simp only [Slice.index] at hi
        split at hi
        · rename_i b hb
          exact (List.getElem?_eq_some_iff.mp hb).1
        · simp at hi
      rw [Run.bind_ok]
      by_cases h0 : len = 0
      · rw [if_pos h0]; exact Or.inl ⟨offset + 1, rfl, hoff⟩
      · rw [if_neg h0]
        exact ih (offset + len + 1) (by omega) (by omega)

theorem Slice.index_ok (data : Slice) (i b : Nat) (h : data.index i = Run.ok b) :
    data.data[i]? = some b := by
  simp only [Slice.index] at h
  split at h
  · rename_i c hc; simp only [Run.ok.injEq] at h; rw [hc, h]
  · simp at h

/-- An offset the walk returns lies inside the buffer, behind the start of
the walk, and the byte before it is the zero terminator. -/
theorem walk_ok_terminator (data : Slice) :
    ∀ (fuel offset k : Nat), walk data fuel offset = Run.ok k →
      offset < k ∧ k ≤ data.len ∧ data.data[k - 1]? = some 0 := by
  intro fuel
  induction fuel with
  | zero => intro offset k h; simp [walk] at h
  | succ f ih =>
    intro offset k h
    rw [walk] at h
    cases hi : data.index offset with
    | fault e => rw [hi] at h; simp at h
    | ok len =>
      rw [hi, Run.bind_ok] at h
      have hget := Slice.index_ok data offset len hi
      have hoff : offset < data.len := (List.getElem?_eq_some_iff.mp hget).1
      by_cases h0 : len = 0
      · rw [if_pos h0] at h
        simp only [Run.ok.injEq] at h
        subst h
        subst h0
        exact ⟨by omega, hoff, by simpa using hget⟩
      · rw [if_neg h0] at h
        obtain ⟨h1, h2, h3⟩ := ih _ _ h
        exact ⟨by omega, h2, h3⟩

/-- The header decoding of `handleRequest` on a buffer that begins with 12
header bytes. -/
theorem binaryReadHeader_append (hdr rest spare : List Nat) (hl : hdr.length = 12) :
    binaryReadHeader ⟨hdr ++ rest, spare⟩ = Except.ok (decodeHeader hdr) := by
  rw [binaryReadHeader_of_le _ (by simp [Slice.len]; omega)]
  simp only []
  rw [← hl, List.take_left]

/-- `createResponse` never returns a non-nil error. -/
theorem createResponse_error_nil (h : DNSHeader) (request : Slice) (resp : List Nat)
    (err : Option BinaryError) (hres : createResponse h request = Run.ok (resp, err)) :
    err = none := by
  rw [createResponse_eq] at hres
  exact (questionLoop_result request _ _ _ _ _ hres).1

/-- The three ways `handleRequest` can go: the header does not decode and one
line is logged; `createResponse` panics and so does `handleRequest`; or
`createResponse` returns a response with a nil error, which is written. -/
theorem handleRequest_cases (conn : UDPConn) (buffer : Slice) :
    ((∃ e, binaryReadHeader buffer = Except.error e) ∧
      handleRequest conn buffer = Run.ok [Event.log LogLine.failedToParseHeader]) ∨
    (∃ header f, binaryReadHeader buffer = Except.ok header ∧
      createResponse header buffer = Run.fault f ∧
      handleRequest conn buffer = Run.fault f) ∨
    (∃ header resp, binaryReadHeader buffer = Except.ok header ∧
      createResponse header buffer = Run.ok (resp, none) ∧
      handleRequest conn buffer = Run.ok ([Event.writeToUDP resp] ++
        (if conn.writeFails resp then [Event.log LogLine.failedToSendResponse] else []))) := by
  cases hb : binaryReadHeader buffer with
  | error e => exact Or.inl ⟨⟨e, rfl⟩, by simp only [handleRequest, hb]⟩
  | ok header =>
    right
    cases hc : createResponse header buffer with
    | fault f =>
      exact Or.inl ⟨header, f, rfl, hc, by simp only [handleRequest, hb, hc, Run.bind_fault]⟩
    | ok r =>
      obtain ⟨resp, err⟩ := r
      have he := createResponse_error_nil header buffer resp err hc
      subst he
      exact Or.inr ⟨header, resp, rfl, hc, by
        simp [handleRequest, hb, hc, afterCreateResponse]⟩

/-- A panic of the walk on complete labels followed by `tail`, where `tail`
is empty or opens with a length byte that announces more than is left. -/
theorem parseQuestion_truncated (labels : List (List Nat)) (tail spare : List Nat)
    (hwf : ∀ l ∈ labels, l ≠ [])
    (ht : tail = [] ∨ ∃ len part, tail = len :: part ∧ part.length < len) :
    parseQuestion ⟨labelsBytes labels ++ tail, spare⟩ = Run.fault Fault.indexOutOfRange := by
  rcases ht with rfl | ⟨len, part, rfl, hp⟩
  · rw [List.append_nil]
    exact parseQuestion_malformed _ _ _ (Malformed.noTerminator labels spare hwf)
  · exact parseQuestion_malformed _ _ _ (Malformed.labelPastEnd labels len part spare hwf hp)

/-- A panic of `parseQuestion` on the bytes behind well-formed questions is a
panic of `createResponse` when the header announces more questions. -/
theorem createResponse_fault (header : DNSHeader) (hdr : List Nat) (qs : List WireQuestion)
    (bad spare : List Nat) (f : Fault) (hlen : hdr.length = 12)
    (hwf : ∀ q ∈ qs, q.WellFormed) (hlt : qs.length < header.QDCount)
    (hp : parseQuestion ⟨bad, spare⟩ = Run.fault f) :
    createResponse header ⟨hdr ++ questionsBytes qs ++ bad, spare⟩ = Run.fault f := by
  obtain ⟨m, hm⟩ : ∃ m, header.QDCount = qs.length + (m + 1) :=
    ⟨header.QDCount - qs.length - 1, by omega⟩
  have h := questionLoop_prefix qs hdr bad spare (encodeHeader (responseHeader header))
    (m + 1) hwf
  have hf := questionLoop_fault (hdr ++ questionsBytes qs) bad spare
    (encodeHeader (responseHeader header) ++ responseBody qs) m f hp
  rw [createResponse_eq, hm, ← hlen, h, hf]

/-- Two slices with the same visible bytes on which `createResponse` agrees
for the decoded header make `handleRequest` act the same. -/
theorem handleRequest_same_bytes (conn : UDPConn) (data spare1 spare2 : List Nat)
    (h : ∀ header, binaryReadHeader ⟨data, spare1⟩ = Except.ok header →
      createResponse header ⟨data, spare1⟩ = createResponse header ⟨data, spare2⟩) :
    handleRequest conn ⟨data, spare1⟩ = handleRequest conn ⟨data, spare2⟩ := by
  have hb : binaryReadHeader ⟨data, spare2⟩ = binaryReadHeader ⟨data, spare1⟩ := rfl
  cases hr : binaryReadHeader ⟨data, spare1⟩ with
  | error e => simp only [handleRequest, hb, hr]
  | ok header => simp only [handleRequest, hb, hr, h header hr]

/-! ## The claims -/

/-- C1: for a header with `question_count = 1` and a request whose bytes from
offset 12 hold one well-formed question `q`, `createResponse` returns exactly
the 12-byte response header, the raw bytes of `q`, and the 16-byte answer
record `C0 0C`, type, class, `00 00 02 58`, `00 04`, `C0 00 02 01`, with a nil
error. -/
theorem C1_single_question_response (header : DNSHeader) (hdr : List Nat) (q : WireQuestion)
    (rest spare : List Nat) (hlen : hdr.length = 12) (hn : header.QDCount = 1)
    (hwf : q.WellFormed) :
    createResponse header ⟨hdr ++ q.bytes ++ rest, spare⟩ =
      Run.ok (encodeHeader (responseHeader header) ++ q.bytes ++
        ([0xC0, 0x0C] ++ putUint16 (q.t0 * 256 + q.t1) ++ putUint16 (q.c0 * 256 + q.c1) ++
          [0x00, 0x00, 0x02, 0x58, 0x00, 0x04, 0xC0, 0x00, 0x02, 0x01]), none) ∧
    (encodeHeader (responseHeader header)).length = 12 ∧
    ([0xC0, 0x0C] ++ putUint16 (q.t0 * 256 + q.t1) ++ putUint16 (q.c0 * 256 + q.c1) ++
          [0x00, 0x00, 0x02, 0x58, 0x00, 0x04, 0xC0, 0x00, 0x02, 0x01]).length = 16 := by
  refine ⟨?_, encodeHeader_length _, by simp [putUint16]⟩
  have h := createResponse_wire header hdr [q] rest spare hlen (by simp [hn])
    (by intro x hx; simp at hx; rw [hx]; exact hwf)
  simpa [questionsBytes, responseBody, WireQuestion.answer] using h

/-- Witness of C1: the request `7example3com0`, type 1, class 1, id `0x1234`. -/
theorem C1_single_question_response_witness :
    createResponse (decodeHeader exampleHeaderBytes) exampleRequest =
      Run.ok ([0x12, 0x34, 0x81, 0x80, 0, 1, 0, 1, 0, 0, 0, 0,
        7, 101, 120, 97, 109, 112, 108, 101, 3, 99, 111, 109, 0, 0, 1, 0, 1,
        0xC0, 0x0C, 0, 1, 0, 1, 0, 0, 2, 0x58, 0, 4, 192, 0, 2, 1], none) :=
  (C1_single_question_response (decodeHeader exampleHeaderBytes) exampleHeaderBytes
    exampleQuestion [] [0, 0, 0, 0, 0, 0, 0, 0] rfl rfl (by decide)).1

/-- C2: whenever `createResponse` returns a response for a header `h` (fields
in `uint16` range) with `question_count = n`, the first 12 bytes of the
response decode to a header with `id = h.id`, `flags = 0x8180` and
`answer_count = n`. -/
theorem C2_response_header_fields (h : DNSHeader) (request : Slice) (resp : List Nat)
    (err : Option BinaryError) (hr : h.InRange)
    (hres : createResponse h request = Run.ok (resp, err)) :
    ∃ hd, binaryReadHeader ⟨resp, []⟩ = Except.ok hd ∧ hd = decodeHeader (resp.take 12) ∧
      hd.ID = h.ID ∧ hd.Flags = 0x8180 ∧ hd.ANCount = h.QDCount := by
  rw [createResponse_eq] at hres
  obtain ⟨_, tail, ht⟩ := questionLoop_result request _ _ _ _ _ hres
  have hl := encodeHeader_length (responseHeader h)
  have hlen : 12 ≤ (⟨resp, []⟩ : Slice).len := by simp [Slice.len, ht, hl]
  have htake : resp.take 12 = encodeHeader (responseHeader h) := by
    rw [ht, ← hl, List.take_left]
  have hrr : (responseHeader h).InRange := by
    obtain ⟨h1, _, h3, _, h5, h6⟩ := hr
    exact ⟨h1, by simp [responseHeader], h3, h3, h5, h6⟩
  have hd := decodeHeader_encodeHeader (responseHeader h) [] hrr
  rw [List.append_nil] at hd
  refine ⟨decodeHeader (resp.take 12), binaryReadHeader_of_le _ hlen, rfl, ?_⟩
  rw [htake, hd]
  simp [responseHeader]

/-- Witness of C2: the example request. -/
theorem C2_response_header_fields_witness :
    ∃ hd, binaryReadHeader ⟨[0x12, 0x34, 0x81, 0x80, 0, 1, 0, 1, 0, 0, 0, 0,
        7, 101, 120, 97, 109, 112, 108, 101, 3, 99, 111, 109, 0, 0, 1, 0, 1,
        0xC0, 0x0C, 0, 1, 0, 1, 0, 0, 2, 0x58, 0, 4, 192, 0, 2, 1], []⟩ = Except.ok hd ∧
      hd = decodeHeader ([0x12, 0x34, 0x81, 0x80, 0, 1, 0, 1, 0, 0, 0, 0,
        7, 101, 120, 97, 109, 112, 108, 101, 3, 99, 111, 109, 0, 0, 1, 0, 1,
        0xC0, 0x0C, 0, 1, 0, 1, 0, 0, 2, 0x58, 0, 4, 192, 0, 2, 1].take 12) ∧
      hd.ID = 0x1234 ∧ hd.Flags = 0x8180 ∧ hd.ANCount = 1 :=
  C2_response_header_fields (decodeHeader exampleHeaderBytes) exampleRequest _ none
    (by decide) (by decide)

/-- C3: on every buffer shorter than 12 bytes, the empty one included, the
header decoding of `handleRequest` returns an error value, and `handleRequest`
returns (no panic) after logging that one line: `createResponse` is not
called and nothing is handed to `WriteToUDP`.  The decoding does not depend
on what lies behind the end of the buffer. -/
theorem C3_short_header_rejected (conn : UDPConn) (buffer : Slice) (h : buffer.len < 12) :
    (∃ e, binaryReadHeader buffer = Except.error e) ∧
      handleRequest conn buffer = Run.ok [Event.log LogLine.failedToParseHeader] ∧
      ∀ spare, binaryReadHeader ⟨buffer.data, spare⟩ = binaryReadHeader buffer := by
  have hb : ∃ e, binaryReadHeader buffer = Except.error e := by
    simp only [binaryReadHeader, structSize_dnsHeaderKinds]
    by_cases h0 : buffer.len = 0
    · exact ⟨BinaryError.eof, by rw [if_pos ⟨h0, by decide⟩]⟩
    · exact ⟨BinaryError.unexpectedEOF, by
        rw [if_neg (fun hc => h0 hc.1), if_pos h]⟩
  obtain ⟨e, he⟩ := hb
  exact ⟨⟨e, he⟩, by simp only [handleRequest, he], fun _ => rfl⟩

/-- Witness of C3: an 11-byte datagram lying in a larger receive buffer. -/
theorem C3_short_header_rejected_witness :
    (∃ e, binaryReadHeader ⟨[0x12, 0x34, 1, 0, 0, 1, 0, 0, 0, 0, 0], [0, 0, 0]⟩ =
        Except.error e) ∧
      handleRequest ⟨fun _ => false⟩ ⟨[0x12, 0x34, 1, 0, 0, 1, 0, 0, 0, 0, 0], [0, 0, 0]⟩ =
        Run.ok [Event.log LogLine.failedToParseHeader] ∧
      ∀ spare, binaryReadHeader
          ⟨(⟨[0x12, 0x34, 1, 0, 0, 1, 0, 0, 0, 0, 0], [0, 0, 0]⟩ : Slice).data, spare⟩ =
        binaryReadHeader ⟨[0x12, 0x34, 1, 0, 0, 1, 0, 0, 0, 0, 0], [0, 0, 0]⟩ :=
  C3_short_header_rejected ⟨fun _ => false⟩ ⟨[0x12, 0x34, 1, 0, 0, 1, 0, 0, 0, 0, 0], [0, 0, 0]⟩
    (by decide)

/-- C4, counterexample: on the 3-byte buffer `03 77 77`, whose label length
carries the walk past the end, `parseQuestion` and `createResponse` do not
report an error but stop with the panic "index out of range"; and on a
13-byte datagram whose name `00` is followed by no byte at all, lying in a
larger receive buffer, `handleRequest` reports nothing: it answers with five
question bytes, four of them read behind the end of the datagram. -/
theorem C4_counterexample :
    parseQuestion ⟨[3, 119, 119], [0, 0, 0, 0, 0, 0, 0, 0]⟩ = Run.fault Fault.indexOutOfRange ∧
    createResponse ⟨7, 0x100, 1, 0, 0, 0⟩
        ⟨[0, 7, 1, 0, 0, 1, 0, 0, 0, 0, 0, 0, 3, 119, 119], [0, 0, 0, 0, 0, 0, 0, 0]⟩ =
      Run.fault Fault.indexOutOfRange ∧
    handleRequest ⟨fun _ => false⟩
        ⟨[0, 7, 1, 0, 0, 1, 0, 0, 0, 0, 0, 0, 0], [0, 0, 0, 0, 0, 0, 0, 0]⟩ =
      Run.ok [Event.writeToUDP [0, 7, 0x81, 0x80, 0, 1, 0, 1, 0, 0, 0, 0, 0, 0, 0, 0, 0,
        0xC0, 0x0C, 0, 0, 0, 0, 0, 0, 2, 0x58, 0, 4, 192, 0, 2, 1]] := by
  decide

/-- C4, amended: on every buffer in which the labels run to the end without a
zero terminator, or a length byte announces more bytes than are left,
`parseQuestion` stops with the Go panic "index out of range"; on every buffer
with a well-formed name and fewer than 4 bytes behind it, the capacity of the
slice included, it stops with the panic "slice bounds out of range".  It has
no error result, and `createResponse` stops with the same panic when it
reaches such a question after any number of well-formed ones. -/
theorem C4_malformed_question_panics (data spare : List Nat) (f : Fault)
    (hm : Malformed data spare f) :
    parseQuestion ⟨data, spare⟩ = Run.fault f ∧ f ≠ Fault.fuelExhausted ∧
    ∀ (header : DNSHeader) (hdr : List Nat) (qs : List WireQuestion),
      hdr.length = 12 → (∀ q ∈ qs, q.WellFormed) → qs.length < header.QDCount →
      createResponse header ⟨hdr ++ questionsBytes qs ++ data, spare⟩ = Run.fault f := by
  have hp := parseQuestion_malformed data spare f hm
  refine ⟨hp, by cases hm <;> decide, ?_⟩
  intro header hdr qs hlen hwf hlt
  obtain ⟨m, hm⟩ : ∃ m, header.QDCount = qs.length + (m + 1) :=
    ⟨header.QDCount - qs.length - 1, by omega⟩
  have h := questionLoop_prefix qs hdr data spare (encodeHeader (responseHeader header))
    (m + 1) hwf
  have hf := questionLoop_fault (hdr ++ questionsBytes qs) data spare
    (encodeHeader (responseHeader header) ++ responseBody qs) m f hp
  rw [createResponse_eq, hm, ← hlen, h, hf]

/-- Witness of C4, amended: the name `3www` cut after two of its three bytes,
behind one well-formed question. -/
theorem C4_malformed_question_panics_witness :
    parseQuestion ⟨labelsBytes [] ++ 3 :: [119, 119], [0, 0]⟩ =
      Run.fault Fault.indexOutOfRange ∧
    Fault.indexOutOfRange ≠ Fault.fuelExhausted ∧
    ∀ (header : DNSHeader) (hdr : List Nat) (qs : List WireQuestion),
      hdr.length = 12 → (∀ q ∈ qs, q.WellFormed) → qs.length < header.QDCount →
      createResponse header ⟨hdr ++ questionsBytes qs ++ (labelsBytes [] ++ 3 :: [119, 119]),
        [0, 0]⟩ = Run.fault Fault.indexOutOfRange :=
  C4_malformed_question_panics _ _ _
    (Malformed.labelPastEnd [] 3 [119, 119] [0, 0] (by decide) (by decide))

/-- C5: for a request holding `question_count = n` consecutive well-formed
questions from offset 12, `createResponse` returns the 12-byte response header
followed, in request order, by each question's raw bytes and one 16-byte
answer record with that question's type and class. -/
theorem C5_answers_in_question_order (header : DNSHeader) (hdr : List Nat)
    (qs : List WireQuestion) (rest spare : List Nat) (hlen : hdr.length = 12)
    (hn : header.QDCount = qs.length) (hwf : ∀ q ∈ qs, q.WellFormed) :
    createResponse header ⟨hdr ++ questionsBytes qs ++ rest, spare⟩ =
      Run.ok (encodeHeader (responseHeader header) ++ responseBody qs, none) ∧
    (encodeHeader (responseHeader header)).length = 12 ∧
    ∀ q ∈ qs, q.answer.length = 16 ∧
      (q.answer.drop 2).take 4 = putUint16 (q.t0 * 256 + q.t1) ++ putUint16 (q.c0 * 256 + q.c1) :=
  ⟨createResponse_wire header hdr qs rest spare hlen hn hwf, encodeHeader_length _,
    fun q _ => ⟨by simp [WireQuestion.answer, putUint16],
      by simp [WireQuestion.answer, putUint16]⟩⟩

/-- Witness of C5: a request with two questions. -/
theorem C5_answers_in_question_order_witness :
    createResponse ⟨7, 0x100, 2, 0, 0, 0⟩
        ⟨[0, 7, 1, 0, 0, 2, 0, 0, 0, 0, 0, 0] ++
          questionsBytes [exampleQuestion, wwwQuestion] ++ [], [0, 0]⟩ =
      Run.ok ([0, 7, 0x81, 0x80, 0, 2, 0, 2, 0, 0, 0, 0,
        7, 101, 120, 97, 109, 112, 108, 101, 3, 99, 111, 109, 0, 0, 1, 0, 1,
        0xC0, 0x0C, 0, 1, 0, 1, 0, 0, 2, 0x58, 0, 4, 192, 0, 2, 1,
        3, 119, 119, 119, 7, 101, 120, 97, 109, 112, 108, 101, 3, 99, 111, 109, 0, 0, 28, 0, 1,
        0xC0, 0x0C, 0, 28, 0, 1, 0, 0, 2, 0x58, 0, 4, 192, 0, 2, 1], none) :=
  (C5_answers_in_question_order ⟨7, 0x100, 2, 0, 0, 0⟩ [0, 7, 1, 0, 0, 2, 0, 0, 0, 0, 0, 0]
    [exampleQuestion, wwwQuestion] [] [0, 0] rfl rfl (by decide)).1

/-- C6: for a request holding `question_count = n` well-formed questions,
each of the `n` answer records of the response begins with the two bytes
`C0 0C`, also the answers to questions that do not start at offset 12: the
`i`-th answer starts behind the header, the first `i` questions with their
16-byte answers, and the `i`-th question. -/
theorem C6_every_answer_points_at_12 (header : DNSHeader) (hdr : List Nat)
    (qs : List WireQuestion) (rest spare : List Nat) (hlen : hdr.length = 12)
    (hn : header.QDCount = qs.length) (hwf : ∀ q ∈ qs, q.WellFormed) :
    ∃ resp, createResponse header ⟨hdr ++ questionsBytes qs ++ rest, spare⟩ =
        Run.ok (resp, none) ∧
      ∀ (i : Nat) (hi : i < qs.length),
        resp[12 + ((qs.take i).map (fun q => q.bytes.length + 16)).sum +
          qs[i].bytes.length]? = some 0xC0 ∧
        resp[12 + ((qs.take i).map (fun q => q.bytes.length + 16)).sum +
          qs[i].bytes.length + 1]? = some 0x0C := by
  refine ⟨_, createResponse_wire header hdr qs rest spare hlen hn hwf, ?_⟩
  intro i hi
  have h := responseBody_answer_start (encodeHeader (responseHeader header)) qs i hi
  rw [encodeHeader_length] at h
  exact h

/-- Witness of C6: the two-question request; its second question starts at
offset 29 and its answer still opens with `C0 0C`. -/
theorem C6_every_answer_points_at_12_witness :
    ∃ resp, createResponse ⟨7, 0x100, 2, 0, 0, 0⟩
        ⟨[0, 7, 1, 0, 0, 2, 0, 0, 0, 0, 0, 0] ++
          questionsBytes [exampleQuestion, wwwQuestion] ++ [], [0, 0]⟩ = Run.ok (resp, none) ∧
      ∀ (i : Nat) (hi : i < [exampleQuestion, wwwQuestion].length),
        resp[12 + (([exampleQuestion, wwwQuestion].take i).map
            (fun q => q.bytes.length + 16)).sum +
          [exampleQuestion, wwwQuestion][i].bytes.length]? = some 0xC0 ∧
        resp[12 + (([exampleQuestion, wwwQuestion].take i).map
            (fun q => q.bytes.length + 16)).sum +
          [exampleQuestion, wwwQuestion][i].bytes.length + 1]? = some 0x0C :=
  C6_every_answer_points_at_12 ⟨7, 0x100, 2, 0, 0, 0⟩ [0, 7, 1, 0, 0, 2, 0, 0, 0, 0, 0, 0]
    [exampleQuestion, wwwQuestion] [] [0, 0] rfl rfl (by decide)

/-- C7: on a buffer that starts with a well-formed name of `k` bytes followed
by at least 4 bytes, `parseQuestion` returns a question whose `Name` is the
first `k` bytes (ending in the zero byte), whose `Type` and `Class` are the
big-endian values of bytes `k, k+1` and `k+2, k+3`, and the count `k + 4`. -/
theorem C7_parseQuestion_result (labels : List (List Nat)) (t0 t1 c0 c1 : Nat)
    (rest spare : List Nat) (hwf : ∀ l ∈ labels, l ≠ []) :
    ∃ q, parseQuestion ⟨encodeName labels ++ t0 :: t1 :: c0 :: c1 :: rest, spare⟩ =
        Run.ok (q, (encodeName labels).length + 4) ∧
      q.Name.data =
        (encodeName labels ++ t0 :: t1 :: c0 :: c1 :: rest).take (encodeName labels).length ∧
      q.Name.data.getLast? = some 0 ∧
      q.Type_ = uint16At (encodeName labels ++ t0 :: t1 :: c0 :: c1 :: rest)
        (encodeName labels).length ∧
      q.Class = uint16At (encodeName labels ++ t0 :: t1 :: c0 :: c1 :: rest)
        ((encodeName labels).length + 2) := by
  refine ⟨_, parseQuestion_wire labels t0 t1 c0 c1 rest spare hwf, ?_, ?_, ?_, ?_⟩
  · simp
  · simp [encodeName_eq]
  · exact (uint16At_pair (encodeName labels) (c0 :: c1 :: rest) t0 t1).symm
  · have h := uint16At_pair (encodeName labels ++ [t0, t1]) rest c0 c1
    simp only [List.append_assoc, List.cons_append, List.nil_append, List.length_append,
      List.length_cons, List.length_nil] at h
    exact h.symm

/-- Witness of C7: `7example3com0`, type 1, class 1, followed by two more bytes. -/
theorem C7_parseQuestion_result_witness :
    ∃ q, parseQuestion ⟨encodeName [[101, 120, 97, 109, 112, 108, 101], [99, 111, 109]] ++
          0 :: 1 :: 0 :: 1 :: [9, 9], [5]⟩ =
        Run.ok (q, (encodeName [[101, 120, 97, 109, 112, 108, 101], [99, 111, 109]]).length + 4) ∧
      q.Name.data =
        (encodeName [[101, 120, 97, 109, 112, 108, 101], [99, 111, 109]] ++
          0 :: 1 :: 0 :: 1 :: [9, 9]).take
            (encodeName [[101, 120, 97, 109, 112, 108, 101], [99, 111, 109]]).length ∧
      q.Name.data.getLast? = some 0 ∧
      q.Type_ = uint16At (encodeName [[101, 120, 97, 109, 112, 108, 101], [99, 111, 109]] ++
          0 :: 1 :: 0 :: 1 :: [9, 9])
        (encodeName [[101, 120, 97, 109, 112, 108, 101], [99, 111, 109]]).length ∧
      q.Class = uint16At (encodeName [[101, 120, 97, 109, 112, 108, 101], [99, 111, 109]] ++
          0 :: 1 :: 0 :: 1 :: [9, 9])
        ((encodeName [[101, 120, 97, 109, 112, 108, 101], [99, 111, 109]]).length + 2) :=
  C7_parseQuestion_result [[101, 120, 97, 109, 112, 108, 101], [99, 111, 109]] 0 1 0 1 [9, 9] [5]
    (by decide)

/-- C8: on every buffer of at least 12 bytes the header decoding succeeds and
yields `id`, `flags`, `question_count`, `answer_count`, `authority_count` and
`additional_count` equal to the big-endian 16-bit values at offsets 0, 2, 4,
6, 8 and 10 of the buffer, unchanged and unchecked. -/
theorem C8_header_decoding (buffer : Slice) (h : 12 ≤ buffer.len) :
    binaryReadHeader buffer = Except.ok
      { ID := buffer.data.getD 0 0 * 256 + buffer.data.getD 1 0,
        Flags := buffer.data.getD 2 0 * 256 + buffer.data.getD 3 0,
        QDCount := buffer.data.getD 4 0 * 256 + buffer.data.getD 5 0,
        ANCount := buffer.data.getD 6 0 * 256 + buffer.data.getD 7 0,
        NSCount := buffer.data.getD 8 0 * 256 + buffer.data.getD 9 0,
        ARCount := buffer.data.getD 10 0 * 256 + buffer.data.getD 11 0 } := by
  rw [binaryReadHeader_of_le buffer h]
  simp only [decodeHeader, uint16At_take _ _ 12 (by decide : 0 + 1 < 12),
    uint16At_take _ _ 12 (by decide : 2 + 1 < 12), uint16At_take _ _ 12 (by decide : 4 + 1 < 12),
    uint16At_take _ _ 12 (by decide : 6 + 1 < 12), uint16At_take _ _ 12 (by decide : 8 + 1 < 12),
    uint16At_take _ _ 12 (by decide : 10 + 1 < 12)]
  rfl

/-- Witness of C8: the example request, flags and counts as sent. -/
theorem C8_header_decoding_witness :
    binaryReadHeader exampleRequest = Except.ok
      { ID := exampleRequest.data.getD 0 0 * 256 + exampleRequest.data.getD 1 0,
        Flags := exampleRequest.data.getD 2 0 * 256 + exampleRequest.data.getD 3 0,
        QDCount := exampleRequest.data.getD 4 0 * 256 + exampleRequest.data.getD 5 0,
        ANCount := exampleRequest.data.getD 6 0 * 256 + exampleRequest.data.getD 7 0,
        NSCount := exampleRequest.data.getD 8 0 * 256 + exampleRequest.data.getD 9 0,
        ARCount := exampleRequest.data.getD 10 0 * 256 + exampleRequest.data.getD 11 0 } :=
  C8_header_decoding exampleRequest (by decide)

/-- C9: on every datagram on which the header decoding fails, or on which
`createResponse` returns an error or panics, `handleRequest` hands nothing to
`WriteToUDP`.  More is true on every datagram: whatever `handleRequest` writes
is a response that `createResponse` returned with a nil error, and the line
"Failed to create UDP response" is never logged. -/
theorem C9_no_write_on_failure (conn : UDPConn) (buffer : Slice) :
    ((∃ e, binaryReadHeader buffer = Except.error e) →
      handleRequest conn buffer = Run.ok [Event.log LogLine.failedToParseHeader]) ∧
    (∀ header resp e, binaryReadHeader buffer = Except.ok header →
      createResponse header buffer = Run.ok (resp, some e) →
      ∀ events, handleRequest conn buffer = Run.ok events →
        ∀ payload, Event.writeToUDP payload ∉ events) ∧
    (∀ header f, binaryReadHeader buffer = Except.ok header →
      createResponse header buffer = Run.fault f →
      handleRequest conn buffer = Run.fault f) ∧
    (∀ events payload, handleRequest conn buffer = Run.ok events →
      Event.writeToUDP payload ∈ events →
      ∃ header, binaryReadHeader buffer = Except.ok header ∧
        createResponse header buffer = Run.ok (payload, none)) ∧
    (∀ events, handleRequest conn buffer = Run.ok events →
      Event.log LogLine.failedToCreateResponse ∉ events) := by
  refine ⟨?_, ?_, ?_, ?_, ?_⟩
  · rintro ⟨e, he⟩
    simp only [handleRequest, he]
  · intro header resp e _ hc
    exact absurd (createResponse_error_nil header buffer resp (some e) hc) (by simp)
  · intro header f hb hc
    simp only [handleRequest, hb, hc, Run.bind_fault]
  · intro events payload hev hmem
    rcases handleRequest_cases conn buffer with ⟨_, h⟩ | ⟨_, f, _, _, h⟩ | ⟨header, resp, hb, hc, h⟩
    · rw [h] at hev; simp only [Run.ok.injEq] at hev; subst hev; simp at hmem
    · rw [h] at hev; simp at hev
    · rw [h] at hev; simp only [Run.ok.injEq] at hev; subst hev
      refine ⟨header, hb, ?_⟩
      have hp : payload = resp := by
        by_cases hw : conn.writeFails resp <;> simp [hw] at hmem <;> exact hmem
      rw [hp]; exact hc
  · intro events hev
    rcases handleRequest_cases conn buffer with ⟨_, h⟩ | ⟨_, f, _, _, h⟩ | ⟨header, resp, _, _, h⟩
    · rw [h] at hev; simp only [Run.ok.injEq] at hev; subst hev; simp
    · rw [h] at hev; simp at hev
    · rw [h] at hev; simp only [Run.ok.injEq] at hev; subst hev
      by_cases hw : conn.writeFails resp <;> simp [hw]

/-- Witness of C9: an 11-byte datagram, and a datagram whose only question is
cut inside its first label. -/
theorem C9_no_write_on_failure_witness :
    handleRequest ⟨fun _ => false⟩ ⟨[0x12, 0x34, 1, 0, 0, 1, 0, 0, 0, 0, 0], [0, 0, 0]⟩ =
      Run.ok [Event.log LogLine.failedToParseHeader] ∧
    handleRequest ⟨fun _ => false⟩
        ⟨[0, 7, 1, 0, 0, 1, 0, 0, 0, 0, 0, 0, 3, 119, 119], [0, 0, 0, 0, 0, 0, 0, 0]⟩ =
      Run.fault Fault.indexOutOfRange :=
  ⟨(C9_no_write_on_failure ⟨fun _ => false⟩
      ⟨[0x12, 0x34, 1, 0, 0, 1, 0, 0, 0, 0, 0], [0, 0, 0]⟩).1 ⟨BinaryError.unexpectedEOF, rfl⟩,
    (C9_no_write_on_failure ⟨fun _ => false⟩
      ⟨[0, 7, 1, 0, 0, 1, 0, 0, 0, 0, 0, 0, 3, 119, 119], [0, 0, 0, 0, 0, 0, 0, 0]⟩).2.2.1
      ⟨7, 0x100, 1, 0, 0, 0⟩ Fault.indexOutOfRange rfl (by decide)⟩

/-- C10: for every header and every request whose bytes from offset 12 hold
`question_count` well-formed questions, `createResponse` returns a byte
sequence with a nil error; and on no header and request at all does it return
a non-nil error, the answer record having the fixed size 16. -/
theorem C10_nil_error (header : DNSHeader) (hdr : List Nat) (qs : List WireQuestion)
    (rest spare : List Nat) (hlen : hdr.length = 12) (hn : header.QDCount = qs.length)
    (hwf : ∀ q ∈ qs, q.WellFormed) :
    (∃ resp, createResponse header ⟨hdr ++ questionsBytes qs ++ rest, spare⟩ =
      Run.ok (resp, none)) ∧
    structSize dnsAnswerKinds = some 16 ∧
    ∀ (h : DNSHeader) (request : Slice) (resp : List Nat) (e : BinaryError),
      createResponse h request ≠ Run.ok (resp, some e) := by
  refine ⟨⟨_, createResponse_wire header hdr qs rest spare hlen hn hwf⟩, rfl, ?_⟩
  intro h request resp e hc
  rw [createResponse_eq] at hc
  have := (questionLoop_result request _ _ _ _ _ hc).1
  simp at this

/-- Witness of C10: the two-question request. -/
theorem C10_nil_error_witness :
    (∃ resp, createResponse ⟨7, 0x100, 2, 0, 0, 0⟩
        ⟨[0, 7, 1, 0, 0, 2, 0, 0, 0, 0, 0, 0] ++
          questionsBytes [exampleQuestion, wwwQuestion] ++ [1, 2, 3], []⟩ =
      Run.ok (resp, none)) ∧
    structSize dnsAnswerKinds = some 16 ∧
    ∀ (h : DNSHeader) (request : Slice) (resp : List Nat) (e : BinaryError),
      createResponse h request ≠ Run.ok (resp, some e) :=
  C10_nil_error ⟨7, 0x100, 2, 0, 0, 0⟩ [0, 7, 1, 0, 0, 2, 0, 0, 0, 0, 0, 0]
    [exampleQuestion, wwwQuestion] [1, 2, 3] [] rfl rfl (by decide)

/-- C11: `createResponse` changes only `flags` and `answer_count` of the
header it writes: in every response it returns, the big-endian values at byte
offsets 0, 4, 8 and 10, the offsets `id`, `question_count`, `authority_count`
and `additional_count` are decoded from, are those of the request header. -/
theorem C11_header_frame (h : DNSHeader) (request : Slice) (resp : List Nat)
    (err : Option BinaryError) (hr : h.InRange)
    (hres : createResponse h request = Run.ok (resp, err)) :
    uint16At resp 0 = h.ID ∧ uint16At resp 4 = h.QDCount ∧ uint16At resp 8 = h.NSCount ∧
      uint16At resp 10 = h.ARCount ∧
    (decodeHeader resp).ID = h.ID ∧ (decodeHeader resp).QDCount = h.QDCount ∧
      (decodeHeader resp).NSCount = h.NSCount ∧ (decodeHeader resp).ARCount = h.ARCount := by
  obtain ⟨tail, ht⟩ := createResponse_header h request resp err hres
  have hd := decodeHeader_encodeHeader (responseHeader h) tail (responseHeader_inRange h hr)
  rw [← ht] at hd
  have e1 : uint16At resp 0 = h.ID := by
    have := congrArg DNSHeader.ID hd; simpa [decodeHeader, responseHeader] using this
  have e2 : uint16At resp 4 = h.QDCount := by
    have := congrArg DNSHeader.QDCount hd; simpa [decodeHeader, responseHeader] using this
  have e3 : uint16At resp 8 = h.NSCount := by
    have := congrArg DNSHeader.NSCount hd; simpa [decodeHeader, responseHeader] using this
  have e4 : uint16At resp 10 = h.ARCount := by
    have := congrArg DNSHeader.ARCount hd; simpa [decodeHeader, responseHeader] using this
  exact ⟨e1, e2, e3, e4, e1, e2, e3, e4⟩

/-- Witness of C11: the example request; id `0x1234`, one question, no
authority and no additional records. -/
theorem C11_header_frame_witness :
    uint16At [0x12, 0x34, 0x81, 0x80, 0, 1, 0, 1, 0, 0, 0, 0,
        7, 101, 120, 97, 109, 112, 108, 101, 3, 99, 111, 109, 0, 0, 1, 0, 1,
        0xC0, 0x0C, 0, 1, 0, 1, 0, 0, 2, 0x58, 0, 4, 192, 0, 2, 1] 0 = 0x1234 :=
  (C11_header_frame ⟨0x1234, 0x100, 1, 0, 0, 0⟩ exampleRequest _ none
    (by decide) (by decide)).1

/-- C12, counterexample: the same 13 request bytes, a header with one
question and the name `00` with nothing behind it, decode to the same header
in both runs, yet `createResponse` panics when the slice has no capacity
behind its length and returns a 33-byte response when it has. -/
theorem C12_counterexample :
    binaryReadHeader ⟨[0, 7, 1, 0, 0, 1, 0, 0, 0, 0, 0, 0, 0], []⟩ =
      Except.ok ⟨7, 0x100, 1, 0, 0, 0⟩ ∧
    binaryReadHeader ⟨[0, 7, 1, 0, 0, 1, 0, 0, 0, 0, 0, 0, 0], [0, 0, 0, 0, 0, 0, 0, 0]⟩ =
      Except.ok ⟨7, 0x100, 1, 0, 0, 0⟩ ∧
    createResponse ⟨7, 0x100, 1, 0, 0, 0⟩ ⟨[0, 7, 1, 0, 0, 1, 0, 0, 0, 0, 0, 0, 0], []⟩ =
      Run.fault Fault.sliceBoundsOutOfRange ∧
    createResponse ⟨7, 0x100, 1, 0, 0, 0⟩
        ⟨[0, 7, 1, 0, 0, 1, 0, 0, 0, 0, 0, 0, 0], [0, 0, 0, 0, 0, 0, 0, 0]⟩ =
      Run.ok ([0, 7, 0x81, 0x80, 0, 1, 0, 1, 0, 0, 0, 0, 0, 0, 0, 0, 0,
        0xC0, 0x0C, 0, 0, 0, 0, 0, 0, 2, 0x58, 0, 4, 192, 0, 2, 1], none) :=
  ⟨rfl, rfl, by decide, by decide⟩

/-- C12, amended: two runs on identical input bytes, whatever the backing
arrays behind them, give the same outcome of the header decoding; the same
actions of `handleRequest` when the header decoding fails; the same response
when the request holds `question_count` well-formed questions from offset 12;
and the same panic when, behind fewer well-formed questions than the header
announces, a name runs to or past the end of the request. -/
theorem C12_same_bytes_same_outcome (conn : UDPConn) (spare1 spare2 : List Nat) :
    (∀ data, binaryReadHeader ⟨data, spare1⟩ = binaryReadHeader ⟨data, spare2⟩) ∧
    (∀ data : List Nat, data.length < 12 →
      handleRequest conn ⟨data, spare1⟩ = handleRequest conn ⟨data, spare2⟩) ∧
    (∀ (hdr : List Nat) (qs : List WireQuestion) (rest : List Nat), hdr.length = 12 →
      (decodeHeader hdr).QDCount = qs.length → (∀ q ∈ qs, q.WellFormed) →
      binaryReadHeader ⟨hdr ++ questionsBytes qs ++ rest, spare1⟩ =
        Except.ok (decodeHeader hdr) ∧
      createResponse (decodeHeader hdr) ⟨hdr ++ questionsBytes qs ++ rest, spare1⟩ =
        createResponse (decodeHeader hdr) ⟨hdr ++ questionsBytes qs ++ rest, spare2⟩ ∧
      handleRequest conn ⟨hdr ++ questionsBytes qs ++ rest, spare1⟩ =
        handleRequest conn ⟨hdr ++ questionsBytes qs ++ rest, spare2⟩) ∧
    (∀ (hdr : List Nat) (qs : List WireQuestion) (labels : List (List Nat)) (tail : List Nat),
      hdr.length = 12 → qs.length < (decodeHeader hdr).QDCount → (∀ q ∈ qs, q.WellFormed) →
      (∀ l ∈ labels, l ≠ []) →
      (tail = [] ∨ ∃ len part, tail = len :: part ∧ part.length < len) →
      binaryReadHeader ⟨hdr ++ questionsBytes qs ++ (labelsBytes labels ++ tail), spare1⟩ =
        Except.ok (decodeHeader hdr) ∧
      createResponse (decodeHeader hdr)
          ⟨hdr ++ questionsBytes qs ++ (labelsBytes labels ++ tail), spare1⟩ =
        createResponse (decodeHeader hdr)
          ⟨hdr ++ questionsBytes qs ++ (labelsBytes labels ++ tail), spare2⟩ ∧
      handleRequest conn ⟨hdr ++ questionsBytes qs ++ (labelsBytes labels ++ tail), spare1⟩ =
        handleRequest conn
          ⟨hdr ++ questionsBytes qs ++ (labelsBytes labels ++ tail), spare2⟩) := by
  refine ⟨fun _ => rfl, ?_, ?_, ?_⟩
  · intro data hlt
    apply handleRequest_same_bytes
    intro header hh
    have hs : (⟨data, spare1⟩ : Slice).len < 12 := hlt
    have : binaryReadHeader ⟨data, spare1⟩ ≠ Except.ok header := by
      simp only [binaryReadHeader, structSize_dnsHeaderKinds]
      by_cases h0 : (⟨data, spare1⟩ : Slice).len = 0
      · rw [if_pos ⟨h0, by decide⟩]; simp
      · rw [if_neg (fun hc => h0 hc.1), if_pos hs]; simp
    exact absurd hh this
  · intro hdr qs rest hl hn hwf
    have hb : ∀ spare, binaryReadHeader ⟨hdr ++ questionsBytes qs ++ rest, spare⟩ =
        Except.ok (decodeHeader hdr) := by
      intro spare
      have := binaryReadHeader_append hdr (questionsBytes qs ++ rest) spare hl
      rwa [← List.append_assoc] at this
    have hc : createResponse (decodeHeader hdr) ⟨hdr ++ questionsBytes qs ++ rest, spare1⟩ =
        createResponse (decodeHeader hdr) ⟨hdr ++ questionsBytes qs ++ rest, spare2⟩ := by
      rw [createResponse_wire _ hdr qs rest spare1 hl hn hwf,
        createResponse_wire _ hdr qs rest spare2 hl hn hwf]
    refine ⟨hb spare1, hc, handleRequest_same_bytes conn _ spare1 spare2 ?_⟩
    intro header hh
    rw [hb spare1] at hh
    simp only [Except.ok.injEq] at hh
    rw [← hh]; exact hc
  · intro hdr qs labels tail hl hlt hwf hlab ht
    have hb : ∀ spare,
        binaryReadHeader ⟨hdr ++ questionsBytes qs ++ (labelsBytes labels ++ tail), spare⟩ =
          Except.ok (decodeHeader hdr) := by
      intro spare
      have := binaryReadHeader_append hdr (questionsBytes qs ++ (labelsBytes labels ++ tail))
        spare hl
      rwa [← List.append_assoc] at this
    have hf : ∀ spare, createResponse (decodeHeader hdr)
        ⟨hdr ++ questionsBytes qs ++ (labelsBytes labels ++ tail), spare⟩ =
          Run.fault Fault.indexOutOfRange := fun spare =>
      createResponse_fault _ hdr qs _ spare _ hl hwf hlt
        (parseQuestion_truncated labels tail spare hlab ht)
    have hc := (hf spare1).trans (hf spare2).symm
    refine ⟨hb spare1, hc, handleRequest_same_bytes conn _ spare1 spare2 ?_⟩
    intro header hh
    rw [hb spare1] at hh
    simp only [Except.ok.injEq] at hh
    rw [← hh]; exact hc

/-- Witness of C12, amended: the example request in a slice without spare
capacity and in a receive buffer give the same actions of `handleRequest`. -/
theorem C12_same_bytes_same_outcome_witness :
    handleRequest ⟨fun _ => false⟩
        ⟨exampleHeaderBytes ++ questionsBytes [exampleQuestion] ++ [], []⟩ =
      handleRequest ⟨fun _ => false⟩
        ⟨exampleHeaderBytes ++ questionsBytes [exampleQuestion] ++ [],
          [0, 0, 0, 0, 0, 0, 0, 0]⟩ :=
  ((C12_same_bytes_same_outcome ⟨fun _ => false⟩ [] [0, 0, 0, 0, 0, 0, 0, 0]).2.2.1
    exampleHeaderBytes [exampleQuestion] [] rfl rfl (by decide)).2.2

/-- C13: `parseQuestion` never decodes a compression pointer.  A length byte
`b ≥ 0xC0` is a label length like any other: the walk advances by `b + 1`;
and a name with a label of `b ≥ 0xC0` bytes, all inside the buffer, is
accepted whole, neither cut after the two bytes of a pointer nor rejected. -/
theorem C13_pointer_is_literal_label (before after : List (List Nat)) (l : List Nat)
    (t0 t1 c0 c1 : Nat) (rest spare : List Nat) (hl : 0xC0 ≤ l.length)
    (hb : ∀ x ∈ before, x ≠ []) (ha : ∀ x ∈ after, x ≠ []) :
    (∀ (data : Slice) (fuel offset : Nat), data.index offset = Run.ok l.length →
      walk data (fuel + 1) offset = walk data fuel (offset + l.length + 1)) ∧
    ∃ q, parseQuestion ⟨encodeName (before ++ l :: after) ++ t0 :: t1 :: c0 :: c1 :: rest,
          spare⟩ =
        Run.ok (q, (labelsBytes before).length + (1 + l.length) +
          (encodeName after).length + 4) ∧
      q.Name.data = labelsBytes before ++ l.length :: l ++ encodeName after := by
  have hne : l.length ≠ 0 := by omega
  have hwf : ∀ x ∈ before ++ l :: after, x ≠ [] := by
    intro x hx
    rcases List.mem_append.mp hx with h | h
    · exact hb x h
    · rcases List.mem_cons.mp h with h | h
      · rw [h]; intro hn; rw [hn] at hne; exact hne rfl
      · exact ha x h
  have hname := encodeName_append_cons before after l
  refine ⟨fun data fuel offset hi => walk_step data fuel offset l.length hi hne,
    ⟨⟨encodeName (before ++ l :: after), t0 :: t1 :: c0 :: c1 :: rest ++ spare⟩,
      t0 * 256 + t1, c0 * 256 + c1⟩, ?_, hname⟩
  have hlen : (encodeName (before ++ l :: after)).length =
      (labelsBytes before).length + (1 + l.length) + (encodeName after).length := by
    rw [hname]; simp only [List.length_append, List.length_cons]; omega
  rw [parseQuestion_wire _ t0 t1 c0 c1 rest spare hwf, hlen]

/-- Witness of C13: a label of 192 bytes (length byte `0xC0`) between `www`
and `com`. -/
theorem C13_pointer_is_literal_label_witness :
    ∃ q, parseQuestion ⟨encodeName ([[119, 119, 119]] ++ List.replicate 192 97 :: [[99, 111, 109]])
          ++ 0 :: 1 :: 0 :: 1 :: [], []⟩ =
        Run.ok (q, (labelsBytes [[119, 119, 119]]).length + (1 + (List.replicate 192 97).length) +
          (encodeName [[99, 111, 109]]).length + 4) ∧
      q.Name.data = labelsBytes [[119, 119, 119]] ++
        (List.replicate 192 97).length :: List.replicate 192 97 ++ encodeName [[99, 111, 109]] :=
  (C13_pointer_is_literal_label [[119, 119, 119]] [[99, 111, 109]] (List.replicate 192 97)
    0 1 0 1 [] [] (le_of_eq (List.length_replicate 192 97).symm) (by decide) (by decide)).2

/-- C14: for a header with `question_count = 0`, `createResponse` returns
exactly the 12 bytes of the response header, with flags `81 80` and
answer count `00 00`, whatever the request holds, also a request of exactly
12 bytes or an empty one. -/
theorem C14_no_question (header : DNSHeader) (request : Slice) (h0 : header.QDCount = 0) :
    createResponse header request =
      Run.ok (putUint16 header.ID ++ [0x81, 0x80] ++ [0, 0] ++ [0, 0] ++
        putUint16 header.NSCount ++ putUint16 header.ARCount, none) ∧
    (putUint16 header.ID ++ [0x81, 0x80] ++ [0, 0] ++ [0, 0] ++
        putUint16 header.NSCount ++ putUint16 header.ARCount).length = 12 := by
  have hf : putUint16 0x8180 = [0x81, 0x80] := by decide
  have hz : putUint16 0 = [0, 0] := by decide
  constructor
  · rw [createResponse_eq]
    simp only [responseHeader, h0, questionLoop, encodeHeader, hf, hz]
  · simp [putUint16]

/-- Witness of C14: a request of exactly 12 bytes. -/
theorem C14_no_question_witness :
    createResponse ⟨0x1234, 0x100, 0, 0, 0, 0⟩
        ⟨[0x12, 0x34, 1, 0, 0, 0, 0, 0, 0, 0, 0, 0], []⟩ =
      Run.ok ([0x12, 0x34, 0x81, 0x80, 0, 0, 0, 0, 0, 0, 0, 0], none) :=
  (C14_no_question ⟨0x1234, 0x100, 0, 0, 0, 0⟩
    ⟨[0x12, 0x34, 1, 0, 0, 0, 0, 0, 0, 0, 0, 0], []⟩ rfl).1

/-- C15: for a request holding `question_count = n` well-formed questions of
raw lengths `l_1 .. l_n`, the response has length `12 + (l_1 + 16) + ... +
(l_n + 16)`; for `n ≥ 1` it is strictly longer than the header and the
questions of the request. -/
theorem C15_response_length (header : DNSHeader) (hdr : List Nat) (qs : List WireQuestion)
    (rest spare : List Nat) (hlen : hdr.length = 12) (hn : header.QDCount = qs.length)
    (hwf : ∀ q ∈ qs, q.WellFormed) :
    ∃ resp, createResponse header ⟨hdr ++ questionsBytes qs ++ rest, spare⟩ =
        Run.ok (resp, none) ∧
      resp.length = 12 + (qs.map (fun q => q.bytes.length + 16)).sum ∧
      resp.length = (hdr ++ questionsBytes qs).length + 16 * qs.length ∧
      (1 ≤ qs.length → (hdr ++ questionsBytes qs).length < resp.length) := by
  have hq : ∀ l : List WireQuestion, (l.map (fun q => q.bytes.length + 16)).sum =
      (questionsBytes l).length + 16 * l.length := by
    intro l
    induction l with
    | nil => simp [questionsBytes]
    | cons q l ih => simp [questionsBytes, ih]; omega
  refine ⟨_, createResponse_wire header hdr qs rest spare hlen hn hwf, ?_, ?_, ?_⟩
  · rw [List.length_append, encodeHeader_length, responseBody_length]
  · rw [List.length_append, encodeHeader_length, responseBody_length, hq,
      List.length_append, hlen]; omega
  · intro h1
    simp only [List.length_append, encodeHeader_length, responseBody_length, hq, hlen]
    omega

/-- Witness of C15: the two-question request, 12 + 17 + 21 bytes of header and
questions, 82 bytes of response. -/
theorem C15_response_length_witness :
    ∃ resp, createResponse ⟨7, 0x100, 2, 0, 0, 0⟩
        ⟨[0, 7, 1, 0, 0, 2, 0, 0, 0, 0, 0, 0] ++
          questionsBytes [exampleQuestion, wwwQuestion] ++ [9], [0, 0]⟩ = Run.ok (resp, none) ∧
      resp.length = 12 + ([exampleQuestion, wwwQuestion].map
        (fun q => q.bytes.length + 16)).sum ∧
      resp.length = ([0, 7, 1, 0, 0, 2, 0, 0, 0, 0, 0, 0] ++
        questionsBytes [exampleQuestion, wwwQuestion]).length +
          16 * [exampleQuestion, wwwQuestion].length ∧
      (1 ≤ [exampleQuestion, wwwQuestion].length →
        ([0, 7, 1, 0, 0, 2, 0, 0, 0, 0, 0, 0] ++
          questionsBytes [exampleQuestion, wwwQuestion]).length < resp.length) :=
  C15_response_length ⟨7, 0x100, 2, 0, 0, 0⟩ [0, 7, 1, 0, 0, 2, 0, 0, 0, 0, 0, 0]
    [exampleQuestion, wwwQuestion] [9] [0, 0] rfl rfl (by decide)

/-- C16: the response does not depend on the request's `flags` or
`answer_count`, nor on the request bytes behind the last question: for two
headers that agree on `id`, `question_count`, `authority_count` and
`additional_count`, and two requests that hold the same `question_count`
well-formed questions from offset 12, `createResponse` returns the same
bytes; and `handleRequest`, which decodes the headers from the requests,
performs the same actions. -/
theorem C16_independent_of_flags_and_trailer (conn : UDPConn) (h1 h2 : DNSHeader)
    (hdr1 hdr2 : List Nat) (qs : List WireQuestion) (rest1 rest2 spare1 spare2 : List Nat)
    (hl1 : hdr1.length = 12) (hl2 : hdr2.length = 12)
    (hid : h1.ID = h2.ID) (hqd : h1.QDCount = h2.QDCount) (hns : h1.NSCount = h2.NSCount)
    (har : h1.ARCount = h2.ARCount) (hn : h1.QDCount = qs.length)
    (hwf : ∀ q ∈ qs, q.WellFormed) :
    createResponse h1 ⟨hdr1 ++ questionsBytes qs ++ rest1, spare1⟩ =
      createResponse h2 ⟨hdr2 ++ questionsBytes qs ++ rest2, spare2⟩ ∧
    (∃ resp, createResponse h1 ⟨hdr1 ++ questionsBytes qs ++ rest1, spare1⟩ =
      Run.ok (resp, none)) ∧
    (h1 = decodeHeader hdr1 → h2 = decodeHeader hdr2 →
      handleRequest conn ⟨hdr1 ++ questionsBytes qs ++ rest1, spare1⟩ =
        handleRequest conn ⟨hdr2 ++ questionsBytes qs ++ rest2, spare2⟩) := by
  have e1 := createResponse_wire h1 hdr1 qs rest1 spare1 hl1 hn hwf
  have e2 := createResponse_wire h2 hdr2 qs rest2 spare2 hl2 (hqd ▸ hn) hwf
  have hh : responseHeader h1 = responseHeader h2 := by
    simp only [responseHeader, hid, hqd, hns, har]
  have hc : createResponse h1 ⟨hdr1 ++ questionsBytes qs ++ rest1, spare1⟩ =
      createResponse h2 ⟨hdr2 ++ questionsBytes qs ++ rest2, spare2⟩ := by
    rw [e1, e2, hh]
  refine ⟨hc, ⟨_, e1⟩, ?_⟩
  intro hd1 hd2
  have r1 := binaryReadHeader_append hdr1 (questionsBytes qs ++ rest1) spare1 hl1
  have r2 := binaryReadHeader_append hdr2 (questionsBytes qs ++ rest2) spare2 hl2
  rw [← List.append_assoc] at r1 r2
  simp only [handleRequest, r1, r2]
  rw [← hd1, ← hd2, hc]

/-- Witness of C16: the example question behind two headers that differ in
`flags` and `answer_count`, with different bytes behind the question. -/
theorem C16_independent_of_flags_and_trailer_witness :
    createResponse ⟨0x1234, 0x0100, 1, 0, 0, 0⟩
        ⟨[0x12, 0x34, 0x01, 0x00, 0, 1, 0, 0, 0, 0, 0, 0] ++ questionsBytes [exampleQuestion] ++
          [], [0, 0, 0, 0]⟩ =
      createResponse ⟨0x1234, 0x0120, 1, 5, 0, 0⟩
        ⟨[0x12, 0x34, 0x01, 0x20, 0, 1, 0, 5, 0, 0, 0, 0] ++ questionsBytes [exampleQuestion] ++
          [1, 2, 3], []⟩ :=
  (C16_independent_of_flags_and_trailer ⟨fun _ => false⟩ ⟨0x1234, 0x0100, 1, 0, 0, 0⟩
    ⟨0x1234, 0x0120, 1, 5, 0, 0⟩ [0x12, 0x34, 0x01, 0x00, 0, 1, 0, 0, 0, 0, 0, 0]
    [0x12, 0x34, 0x01, 0x20, 0, 1, 0, 5, 0, 0, 0, 0] [exampleQuestion] [] [1, 2, 3]
    [0, 0, 0, 0] [] rfl rfl rfl rfl rfl rfl rfl (by decide)).1

/-- C17: the label walk of `parseQuestion` ends on every buffer.  A step over
a non-zero length byte moves the offset forward by at least 2; with the
`len(data) + 1` iterations `parseQuestion` allows, of which the last is the
one that ends the walk, the walk returns an offset inside the buffer whose
preceding byte is zero, or stops with the panic of an index at or behind the
buffer end; more iterations change nothing. -/
theorem C17_walk_terminates (data : Slice) :
    (∀ (fuel offset len : Nat), data.index offset = Run.ok len → len ≠ 0 →
      walk data (fuel + 1) offset = walk data fuel (offset + len + 1) ∧
        offset + 2 ≤ offset + len + 1) ∧
    ((∃ k, walk data (data.len + 1) 0 = Run.ok k ∧ 0 < k ∧ k ≤ data.len ∧
        data.data[k - 1]? = some 0) ∨
      walk data (data.len + 1) 0 = Run.fault Fault.indexOutOfRange) ∧
    (∀ fuel, data.len + 1 ≤ fuel → walk data fuel 0 = walk data (data.len + 1) 0) := by
  refine ⟨fun fuel offset len hi hne => ⟨walk_step data fuel offset len hi hne, by omega⟩,
    ?_, fun fuel hf => walk_fuel_stable data fuel (data.len + 1) 0 (by omega) (by omega)
      (by omega) (by omega)⟩
  rcases walk_outcome data (data.len + 1) 0 (by omega) (by omega) with ⟨k, hk, _⟩ | hp
  · obtain ⟨a, b, c⟩ := walk_ok_terminator data _ _ _ hk
    exact Or.inl ⟨k, hk, a, b, c⟩
  · exact Or.inr hp

/-- Witness of C17: the walk over `7example3com0` ends behind the zero byte. -/
theorem C17_walk_terminates_witness :
    (∃ k, walk ⟨exampleQuestion.bytes, []⟩ ((⟨exampleQuestion.bytes, []⟩ : Slice).len + 1) 0 =
        Run.ok k ∧ 0 < k ∧ k ≤ (⟨exampleQuestion.bytes, []⟩ : Slice).len ∧
        (⟨exampleQuestion.bytes, []⟩ : Slice).data[k - 1]? = some 0) ∨
      walk ⟨exampleQuestion.bytes, []⟩ ((⟨exampleQuestion.bytes, []⟩ : Slice).len + 1) 0 =
        Run.fault Fault.indexOutOfRange :=
  (C17_walk_terminates ⟨exampleQuestion.bytes, []⟩).2.1

/-- C18: header serialisation and header decoding are inverse.  Decoding the
12 bytes the header write of `createResponse` produces for a header gives the
header back; serialising the header decoded from a buffer of 12 bytes gives
the buffer back; and the header of every response `createResponse` returns
decodes to the request header with `flags` and `answer_count` replaced. -/
theorem C18_header_roundtrip :
    (∀ h : DNSHeader, h.InRange →
      binaryReadHeader ⟨(binaryWrite [] dnsHeaderKinds (encodeHeader h)).1, []⟩ =
        Except.ok h) ∧
    (∀ b : List Nat, b.length = 12 → (∀ x ∈ b, x < 256) →
      ∃ h, binaryReadHeader ⟨b, []⟩ = Except.ok h ∧
        (binaryWrite [] dnsHeaderKinds (encodeHeader h)).1 = b) ∧
    (∀ (h : DNSHeader) (request : Slice) (resp : List Nat) (err : Option BinaryError),
      h.InRange → createResponse h request = Run.ok (resp, err) →
      binaryReadHeader ⟨resp, []⟩ =
        Except.ok { h with Flags := 0x8180, ANCount := h.QDCount }) := by
  refine ⟨?_, ?_, ?_⟩
  · intro h hr
    have hw : (binaryWrite [] dnsHeaderKinds (encodeHeader h)).1 = encodeHeader h := by
      simp [binaryWrite, structSize_dnsHeaderKinds]
    have hd := decodeHeader_encodeHeader h [] hr
    have hb := binaryReadHeader_append (encodeHeader h) [] [] (encodeHeader_length h)
    rw [hw]
    rw [List.append_nil] at hd hb
    rw [hb, hd]
  · intro b hb hbytes
    have hr := binaryReadHeader_append b [] [] hb
    rw [List.append_nil] at hr
    refine ⟨_, hr, ?_⟩
    match b, hb, hbytes with
    | [b0, b1, b2, b3, b4, b5, b6, b7, b8, b9, b10, b11], _, hbytes =>
      have hd : decodeHeader [b0, b1, b2, b3, b4, b5, b6, b7, b8, b9, b10, b11] =
          ⟨b0 * 256 + b1, b2 * 256 + b3, b4 * 256 + b5, b6 * 256 + b7, b8 * 256 + b9,
            b10 * 256 + b11⟩ := rfl
      simp only [binaryWrite, structSize_dnsHeaderKinds, hd, encodeHeader, List.nil_append,
        putUint16_pair b0 b1 (hbytes b0 (by simp)) (hbytes b1 (by simp)),
        putUint16_pair b2 b3 (hbytes b2 (by simp)) (hbytes b3 (by simp)),
        putUint16_pair b4 b5 (hbytes b4 (by simp)) (hbytes b5 (by simp)),
        putUint16_pair b6 b7 (hbytes b6 (by simp)) (hbytes b7 (by simp)),
        putUint16_pair b8 b9 (hbytes b8 (by simp)) (hbytes b9 (by simp)),
        putUint16_pair b10 b11 (hbytes b10 (by simp)) (hbytes b11 (by simp))]
      rfl
  · intro h request resp err hr hres
    obtain ⟨tail, ht⟩ := createResponse_header h request resp err hres
    have hb := binaryReadHeader_append (encodeHeader (responseHeader h)) tail []
      (encodeHeader_length _)
    have hd := decodeHeader_encodeHeader (responseHeader h) [] (responseHeader_inRange h hr)
    rw [List.append_nil] at hd
    rw [ht, hb, hd]
    rfl

/-- Witness of C18: the header of the example request, both ways, and the
header of its response. -/
theorem C18_header_roundtrip_witness :
    binaryReadHeader ⟨(binaryWrite [] dnsHeaderKinds
        (encodeHeader ⟨0x1234, 0x0100, 1, 0, 0, 0⟩)).1, []⟩ =
      Except.ok ⟨0x1234, 0x0100, 1, 0, 0, 0⟩ ∧
    (∃ h, binaryReadHeader ⟨exampleHeaderBytes, []⟩ = Except.ok h ∧
      (binaryWrite [] dnsHeaderKinds (encodeHeader h)).1 = exampleHeaderBytes) ∧
    binaryReadHeader ⟨[0x12, 0x34, 0x81, 0x80, 0, 1, 0, 1, 0, 0, 0, 0,
        7, 101, 120, 97, 109, 112, 108, 101, 3, 99, 111, 109, 0, 0, 1, 0, 1,
        0xC0, 0x0C, 0, 1, 0, 1, 0, 0, 2, 0x58, 0, 4, 192, 0, 2, 1], []⟩ =
      Except.ok ⟨0x1234, 0x8180, 1, 1, 0, 0⟩ :=
  ⟨C18_header_roundtrip.1 ⟨0x1234, 0x0100, 1, 0, 0, 0⟩ (by decide),
    C18_header_roundtrip.2.1 exampleHeaderBytes rfl (by decide),
    C18_header_roundtrip.2.2 ⟨0x1234, 0x0100, 1, 0, 0, 0⟩ exampleRequest _ none
      (by decide) (by decide)⟩

end MantyDns
